import Mathlib

/-
Verification development for the social-choice solver package
(src/socialchoice).  The Python source is shallowly embedded: floating
point numbers are modelled as rationals (the design contract is
tolerance-bounded comparison, never exact float identity), mutable
objects become explicit state passing, exceptions become Except, and
the external LP engine (pulp) is an oracle argument supplying a status
and variable values.  Python dicts keyed by choice classes are modelled
as a key list (insertion order) together with a total value function;
a key outside the list carries the freshly-constructed default value,
exactly what the lazy getTower constructor would install.
-/

/-- Embeds society.Choice: a wrapper around a hashable object; equality and
hash delegate to the wrapped object.  The wrapped object is modelled as a
natural number (any identity-comparable value works). -/
structure Choice where
  obj : Nat
deriving DecidableEq

/-- Choice ordering delegates to the wrapped object, as in the source's
total_ordering decoration. -/
instance : LinearOrder Choice :=
  LinearOrder.lift' (fun c => c.obj) (fun a b h => by cases a; cases b; simpa using h)

/-- Embeds society.ChoiceClass: an immutable, deduplicated, unordered set of
choices (a frozenset in the source). -/
abbrev ChoiceClass := Finset Choice

/-- A total order on choice classes (colexicographic), used only to pick a
concrete iteration order for sets of classes (the source iterates dicts
and combination chains; no claim depends on the order). -/
def classLe (s t : ChoiceClass) : Prop :=
  Finset.Colex.toColex s ≤ Finset.Colex.toColex t

instance : DecidableRel classLe :=
  fun s t => inferInstanceAs (Decidable (Finset.Colex.toColex s ≤ Finset.Colex.toColex t))

instance : IsTrans ChoiceClass classLe :=
  ⟨fun _ _ _ h1 h2 => le_trans h1 h2⟩

instance : IsAntisymm ChoiceClass classLe :=
  ⟨fun _ _ h1 h2 => Finset.toColex_injective (le_antisymm h1 h2)⟩

instance : IsTotal ChoiceClass classLe :=
  ⟨fun s t => le_total (Finset.Colex.toColex s) (Finset.Colex.toColex t)⟩

/-- A canonical list enumeration of a multiset, by insertion sort (the
source iterates Python dicts and sets; the enumeration order is
irrelevant to every property proved here). -/
def sortedListOfM {α : Type} (r : α → α → Prop) [DecidableRel r] [IsTrans α r]
    [IsAntisymm α r] [IsTotal α r] (m : Multiset α) : List α :=
  Quot.liftOn m (fun l => l.insertionSort r)
    (fun _ _ h =>
      List.eq_of_perm_of_sorted
        ((List.perm_insertionSort r _).trans (h.trans (List.perm_insertionSort r _).symm))
        (List.sorted_insertionSort r _) (List.sorted_insertionSort r _))

/-- A canonical list enumeration of a finite set. -/
def sortedListOf {α : Type} (r : α → α → Prop) [DecidableRel r] [IsTrans α r]
    [IsAntisymm α r] [IsTotal α r] (s : Finset α) : List α :=
  sortedListOfM r s.val

/-- Embeds society.Preference: an ordered tuple of choice classes, most
preferred first. -/
abbrev Preference := List ChoiceClass

/-- Embeds society.Agent.  The source stores a hashable identifier, a
Preference and a display name (the name is presentation-only and omitted).
Python objects additionally carry an object identity; because the source
class defines no `__hash__`, CPython 2 hashes Agent by `id`, so the object
identity `objId` is part of the observable behaviour and is modelled. -/
structure Agent where
  objId : Nat
  identifier : Nat
  preference : Preference
deriving DecidableEq

/-- Embeds Agent.`__eq__`: two agents compare equal iff their identifiers
are equal (preference and name are ignored). -/
def agentEq (a b : Agent) : Bool :=
  a.identifier == b.identifier

/-- Embeds `hash(agent)`: Agent defines `__eq__` but no `__hash__`, so in
the source (Python 2) the inherited object hash, based on the object id,
is used. -/
def pyHash (a : Agent) : Nat :=
  a.objId

/-- Embeds `frozenset(agents)`: CPython set insertion keeps the first
element and drops a later one only when the later one has an equal hash
AND compares equal to an element already present. -/
def pyFrozenset (agents : List Agent) : List Agent :=
  agents.foldl
    (fun acc a =>
      if acc.any (fun b => pyHash b == pyHash a && agentEq b a) then acc
      else acc ++ [a])
    []

/-- Embeds society.Vote: the set of all choices plus the agent set. -/
structure Vote where
  agents : List Agent
  choices : Finset Choice

/-- The union of all choices appearing in any agent's preference, as built
by the first loops of Vote.`__init__`. -/
def voteChoices (agents : List Agent) : Finset Choice :=
  agents.foldl (fun acc a => a.preference.foldl (fun acc2 cl => acc2 ∪ cl) acc) ∅

/-- Embeds Vote.`__init__`: collect the union of every agent's choices,
then check each agent's choices for membership in that union (the source
intends a completeness check; the membership test is against the union of
ALL agents' choices).  Note that if the raise statement were ever reached,
its string concatenation `+ +` applies unary plus to a str and the
construction would abort with a TypeError rather than the ValueError. -/
def voteInit (agents : List Agent) : Except String Vote :=
  let choices := voteChoices agents
  if agents.any (fun a => a.preference.any (fun cl => decide (∃ c ∈ cl, c ∉ choices))) then
    .error "TypeError: bad operand type for unary plus"
  else
    .ok { agents := pyFrozenset agents, choices := choices }

/-- Embeds solver.settings.SolverSettings: a relative and an absolute
tolerance (the LP solver handle is external and modelled separately). -/
structure SolverSettings where
  relativeTolerance : ℚ
  absoluteTolerance : ℚ

/-- Embeds SolverSettings.isClose, i.e. numpy.isclose(a, b, rtol, atol):
true iff the absolute difference is at most atol + rtol * abs(b). -/
def SolverSettings.isClose (s : SolverSettings) (a b : ℚ) : Bool :=
  decide (|a - b| ≤ s.absoluteTolerance + s.relativeTolerance * |b|)

/-- Embeds SolverSettings.isNonnegative: strictly positive, or within
tolerance of zero. -/
def SolverSettings.isNonnegative (s : SolverSettings) (a : ℚ) : Bool :=
  if a > 0 then true else s.isClose a 0

/-- Embeds SolverSettings.isInInterval (for a ≤ b, which holds at every
call site, where the interval is always [0, 1]): inside the interval or
within tolerance of a bound. -/
def SolverSettings.isInInterval (s : SolverSettings) (v a b : ℚ) : Bool :=
  if v < a then s.isClose v a
  else if b < v then s.isClose b v
  else true

/-- Embeds SolverSettings.bound (for a ≤ b): clamp v into [a, b]. -/
def boundValue (v a b : ℚ) : ℚ :=
  if v < a then a else if b < v then b else v

/-- Embeds SolverSettings.checkBound: clamp if within tolerance of the
interval, otherwise fail with an out-of-range error. -/
def SolverSettings.checkBound (s : SolverSettings) (v a b : ℚ) : Except String ℚ :=
  if s.isInInterval v a b then .ok (boundValue v a b)
  else .error "Value out of bounds"

/-- Embeds society.Lottery: a mapping from choice objects to probabilities
(the dict is modelled as an association list with the source's iteration
order). -/
structure Lottery where
  distribution : List (Nat × ℚ)

/-- The value-checking loop of Lottery.`__init__`: every probability is
passed through checkBound(value, 0, 1). -/
def checkDist (s : SolverSettings) : List (Nat × ℚ) → Except String (List (Nat × ℚ))
  | [] => .ok []
  | (o, v) :: rest =>
    match s.checkBound v 0 1 with
    | .error e => .error e
    | .ok b =>
      match checkDist s rest with
      | .error e => .error e
      | .ok r => .ok ((o, b) :: r)

/-- Embeds Lottery.`__init__`: check and clamp every probability, then
assert that the values sum to 1 within tolerance. -/
def mkLottery (distribution : List (Nat × ℚ)) (s : SolverSettings) : Except String Lottery :=
  match checkDist s distribution with
  | .error e => .error e
  | .ok vals =>
    if s.isClose (vals.map Prod.snd).sum 1 then .ok ⟨vals⟩
    else .error "AssertionError: distribution does not sum to 1"

/-- The pulp LP statuses as tested by solver.util.checkPulpStatus. -/
inductive LpStatus where
  | optimal
  | infeasible
  | unbounded
  | undefined
  | notSolved
deriving DecidableEq

/-- Embeds solver.util.checkPulpStatus: optimal passes through; each other
status raises its own named error unless the corresponding flag disables
it (every call site in the source leaves all flags at True). -/
def checkPulpStatus (status : LpStatus)
    (errorInfeasible errorUnbounded errorUndefined errorNotSolved : Bool) :
    Except String LpStatus :=
  match status with
  | .optimal => .ok .optimal
  | .infeasible => if errorInfeasible then .error "Infeasible" else .ok .infeasible
  | .unbounded => if errorUnbounded then .error "Unbounded" else .ok .unbounded
  | .undefined => if errorUndefined then .error "Undefined" else .ok .undefined
  | .notSolved => if errorNotSolved then .error "Not solver" else .ok .notSolved

/-- Embeds solver.util.findLottery.  The LP (one nonnegative variable per
choice, the distribution constraint, one height constraint per class in
classHeights, maximize total probability) is handed to the external
engine, whose answer is the oracle pair (lpStatus, lpValues).  The source
discards the status returned by problem.solve without any check and reads
the variable values straight into a Lottery; the embedding accordingly
ignores lpStatus. -/
def findLottery (vote : Vote) (classHeights : List (ChoiceClass × ℚ))
    (settings : SolverSettings) (lpStatus : LpStatus) (lpValues : Choice → ℚ) :
    Except String Lottery :=
  mkLottery ((sortedListOf (fun a b => a ≤ b) vote.choices).map (fun c => (c.obj, lpValues c)))
    settings

/-- Embeds solver.util.getAllSubsets: the full set alone when startSize
equals the number of elements, nothing when startSize exceeds it, and
otherwise all subsets of sizes startSize up to (but excluding) the size of
the element set, because the source iterates range(startSize, len). -/
def getAllSubsets (elements : Finset Choice) (startSize : Nat) : Finset ChoiceClass :=
  if startSize = elements.card then {elements}
  else if elements.card < startSize then ∅
  else elements.powerset.filter (fun t => startSize ≤ t.card ∧ t.card < elements.card)

/-- Iteration over getAllSubsets (the source iterates the combinations
chain; the order is irrelevant to every use). -/
def getAllSubsetsList (elements : Finset Choice) (startSize : Nat) : List ChoiceClass :=
  sortedListOf classLe (getAllSubsets elements startSize)

/-- Embeds solver.sr.AgentData: the agent, the cursor into its preference
(current choice class, None once exhausted, plus the not-yet-visited
tail), a personal height and a personal speed. -/
structure SRAgentData where
  agent : Agent
  current : Option ChoiceClass
  rest : List ChoiceClass
  height : ℚ
  speed : ℚ
deriving DecidableEq

/-- Embeds sr.AgentData.setHeight: heights must lie in [0, 1]. -/
def SRAgentData.setHeightD (d : SRAgentData) (h : ℚ) : Except String SRAgentData :=
  if h < 0 ∨ 1 < h then .error "Height must be between 0 and 1"
  else .ok { d with height := h }

/-- Embeds sr.AgentData.setSpeed: speeds must be nonnegative. -/
def SRAgentData.setSpeedD (d : SRAgentData) (sp : ℚ) : Except String SRAgentData :=
  if sp < 0 then .error "Speed must be nonnegative"
  else .ok { d with speed := sp }

/-- Embeds sr.AgentData.advanceCurrentChoiceClass: a finished agent is
left alone; otherwise the cursor moves to the next class (None when the
preference is exhausted) and the personal height resets to 0. -/
def SRAgentData.advanceClass (d : SRAgentData) : SRAgentData :=
  match d.current with
  | none => d
  | some _ => { d with current := d.rest.head?, rest := d.rest.tail, height := 0 }

/-- Embeds sr.SRState: settings, the vote, one AgentData per agent, and
the lazily-created towers.  The tower dict is a key list (insertion
order) plus a total height function; sr.Tower carries only a height,
initialised to 0. -/
structure SRState where
  settings : SolverSettings
  vote : Vote
  agents : List SRAgentData
  towerKeys : List ChoiceClass
  towerHeight : ChoiceClass → ℚ

/-- Embeds sr.SRState.getTower restricted to its materialising effect: a
missing key is inserted with a fresh Tower of height 0. -/
def getTowerSR (st : SRState) (k : ChoiceClass) : SRState :=
  if k ∈ st.towerKeys then st
  else { st with towerKeys := st.towerKeys ++ [k],
                 towerHeight := Function.update st.towerHeight k 0 }

/-- The height sr.SRState.getClassHeight would report for a key, without
the materialising side effect: the stored height for a known tower, and
the fresh tower's 0 otherwise. -/
def srHeightView (st : SRState) (k : ChoiceClass) : ℚ :=
  if k ∈ st.towerKeys then st.towerHeight k else 0

/-- Embeds sr.Tower.tryClimb on the tower keyed k: raise the tower to the
climber's height when that is higher (sr.Tower.setHeight rejects heights
outside [0, 1]). -/
def tryClimbSR (st : SRState) (k : ChoiceClass) (h : ℚ) : Except String SRState :=
  let st1 := getTowerSR st k
  if h > st1.towerHeight k then
    if h < 0 ∨ 1 < h then .error "Height must be between 0 and 1"
    else .ok { st1 with towerHeight := Function.update st1.towerHeight k h }
  else .ok st1

/-- Embeds sr.SRState.setClassHeight: getTower(choiceClass).setHeight. -/
def setClassHeight (st : SRState) (k : ChoiceClass) (h : ℚ) : Except String SRState :=
  let st1 := getTowerSR st k
  if h < 0 ∨ 1 < h then .error "Height must be between 0 and 1"
  else .ok { st1 with towerHeight := Function.update st1.towerHeight k h }

/-- Embeds the body of sr.SRState.advance for one AgentData (a finished
agent is skipped by the active filter): project the personal height
forward, require it within tolerance of [0, 1], clamp, climb the tower of
the current class, then either bounce (advance the cursor) or store the
new personal height. -/
def advanceSRAgent (st : SRState) (dt : ℚ) (bouncing : List Agent) (d : SRAgentData) :
    Except String (SRState × SRAgentData) :=
  match d.current with
  | none => .ok (st, d)
  | some cc =>
    let climbed := d.height + dt * d.speed
    if !(st.settings.isInInterval climbed 0 1) then
      .error "agent wants to push tower outside the unit interval"
    else
      let climbed2 := boundValue climbed 0 1
      match tryClimbSR st cc climbed2 with
      | .error e => .error e
      | .ok st1 =>
        if bouncing.any (fun b => agentEq b d.agent) then
          .ok (st1, d.advanceClass)
        else
          match d.setHeightD climbed2 with
          | .error e => .error e
          | .ok d2 => .ok (st1, d2)

/-- The agent loop of sr.SRState.advance, threading the tower state while
rebuilding the agent records in iteration order. -/
def advanceSRGo (st : SRState) (dt : ℚ) (bouncing : List Agent) :
    List SRAgentData → Except String (SRState × List SRAgentData)
  | [] => .ok (st, [])
  | d :: ds =>
    match advanceSRAgent st dt bouncing d with
    | .error e => .error e
    | .ok (st1, d2) =>
      match advanceSRGo st1 dt bouncing ds with
      | .error e => .error e
      | .ok (st2, ds2) => .ok (st2, d2 :: ds2)

/-- Embeds sr.SRState.advance(climbingTime, bouncingAgents). -/
def advanceSR (st : SRState) (dt : ℚ) (bouncing : List Agent) : Except String SRState :=
  match advanceSRGo st dt bouncing st.agents with
  | .error e => .error e
  | .ok (st1, ags) => .ok { st1 with agents := ags }

/-- Embeds sr.SRState.setAgentHeight for one AgentData: the height must be
within tolerance of [0, 1] and is clamped before AgentData.setHeight. -/
def setAgentHeightD (s : SolverSettings) (d : SRAgentData) (h : ℚ) :
    Except String SRAgentData :=
  if !(s.isInInterval h 0 1) then .error "Height must be between 0 and 1"
  else d.setHeightD (boundValue h 0 1)

/-- The number of active agents whose current choice class is a subset of
the given class; the fraction of such agents is the height the SPSR
initialisation assigns. -/
def countSubsetAgents (agents : List SRAgentData) (k : ChoiceClass) : Nat :=
  agents.countP (fun d =>
    match d.current with
    | some cc => decide (cc ⊆ k)
    | none => false)

/-- The element step of the agent-height loop of one SPSR initialisation
step: an agent whose current class equals the subset being processed
receives the height through setAgentHeight; other agents are untouched. -/
def setAgentHeightsGo (s : SolverSettings) (k : ChoiceClass) (h : ℚ) :
    List SRAgentData → Except String (List SRAgentData)
  | [] => .ok []
  | d :: ds =>
    match (if d.current = some k then setAgentHeightD s d h else .ok d) with
    | .error e => .error e
    | .ok d2 =>
      match setAgentHeightsGo s k h ds with
      | .error e => .error e
      | .ok ds2 => .ok (d2 :: ds2)

/-- The agent-height loop at the end of one SPSR initialisation step: set
the personal height of every agent whose current class equals the subset
being processed. -/
def setAgentHeightsFor (st : SRState) (k : ChoiceClass) (h : ℚ) : Except String SRState :=
  match setAgentHeightsGo st.settings k h st.agents with
  | .error e => .error e
  | .ok ags => .ok { st with agents := ags }

/-- One iteration of the initialisation loop of sr.solveVoteSPSR for the
subset k: count the active agents whose current class is contained in k,
divide by the agent count of the vote, set the tower height, and give
every agent whose current class equals k the same personal height. -/
def spsrStep (st : SRState) (k : ChoiceClass) : Except String SRState :=
  let h : ℚ := (countSubsetAgents st.agents k : ℚ) / (st.vote.agents.length : ℚ)
  match setClassHeight st k h with
  | .error e => .error e
  | .ok st1 => setAgentHeightsFor st1 k h

/-- The initialisation loop of sr.solveVoteSPSR, iterating spsrStep over
getAllSubsets(vote.getChoices()) with the default startSize of 1. -/
def spsrInitGo (st : SRState) : List ChoiceClass → Except String SRState
  | [] => .ok st
  | k :: ks =>
    match spsrStep st k with
    | .error e => .error e
    | .ok st1 => spsrInitGo st1 ks

/-- Embeds the part of sr.solveVoteSPSR that precedes its main loop. -/
def spsrInit (st : SRState) : Except String SRState :=
  spsrInitGo st (getAllSubsetsList st.vote.choices 1)

/-- Embeds solver.ssr.Tower: height, speed and the terminal frozen flag
(the choice class is the key under which the tower is stored; the display
name is presentation-only). -/
structure SSRTower where
  height : ℚ
  speed : ℚ
  frozen : Bool
deriving DecidableEq

/-- The freshly-constructed ssr.Tower: height 0, speed 0, not frozen. -/
def defaultSSRTower : SSRTower :=
  { height := 0, speed := 0, frozen := false }

/-- Embeds ssr.Tower.setSpeed: a nonzero speed on a frozen tower is
rejected, negative speeds are rejected. -/
def SSRTower.setSpeed (t : SSRTower) (sp : ℚ) : Except String SSRTower :=
  if sp ≠ 0 ∧ t.frozen then .error "Cannot change speed after freeze"
  else if sp < 0 then .error "Speed must be nonnegative"
  else .ok { t with speed := sp }

/-- Embeds ssr.Tower.addSpeed: setSpeed(getSpeed() + speed). -/
def SSRTower.addSpeed (t : SSRTower) (sp : ℚ) : Except String SSRTower :=
  t.setSpeed (t.speed + sp)

/-- Embeds ssr.Tower.setFrozen: pin the speed to 0 and set the flag
(setSpeed(0) always succeeds, also on an already frozen tower). -/
def SSRTower.setFrozen (t : SSRTower) : SSRTower :=
  { t with speed := 0, frozen := true }

/-- Embeds ssr.Tower.setHeight(height, ignoreFrozen): changing a frozen
tower to a different height is rejected unless ignoreFrozen is set;
heights must lie in [0, 1]; setting the height to exactly 1 freezes the
tower (setFrozen) before the height is stored. -/
def SSRTower.setHeight (t : SSRTower) (h : ℚ) (ignoreFrozen : Bool) : Except String SSRTower :=
  if t.frozen ∧ ignoreFrozen = false ∧ t.height ≠ h then
    .error "Cannot change tower height after freeze"
  else if h < 0 ∨ 1 < h then .error "Height must be between 0 and 1"
  else if h = 1 then .ok { t.setFrozen with height := h }
  else .ok { t with height := h }

/-- Embeds ssr.AgentData: the agent and the cursor into its preference
(no personal height or speed in the tower-centric engine). -/
structure SSRAgentData where
  agent : Agent
  current : Option ChoiceClass
  rest : List ChoiceClass
deriving DecidableEq

/-- Embeds ssr.AgentData.advanceCurrentChoiceClass. -/
def SSRAgentData.advanceClass (d : SSRAgentData) : SSRAgentData :=
  match d.current with
  | none => d
  | some _ => { d with current := d.rest.head?, rest := d.rest.tail }

/-- Embeds ssr.SSRState: settings, the vote, one AgentData per agent and
the tower dict (key list in insertion order plus a total function; keys
outside the list carry the freshly constructed default tower). -/
structure SSRState where
  settings : SolverSettings
  vote : Vote
  agents : List SSRAgentData
  towerKeys : List ChoiceClass
  towerOf : ChoiceClass → SSRTower

/-- Embeds ssr.SSRState.getTower restricted to its materialising effect:
a missing key is inserted with a freshly constructed tower. -/
def getTowerSSR (st : SSRState) (k : ChoiceClass) : SSRState :=
  if k ∈ st.towerKeys then st
  else { st with towerKeys := st.towerKeys ++ [k],
                 towerOf := Function.update st.towerOf k defaultSSRTower }

/-- The tower ssr.SSRState.getTower would hand out for a key, without the
materialising side effect. -/
def towerView (st : SSRState) (k : ChoiceClass) : SSRTower :=
  if k ∈ st.towerKeys then st.towerOf k else defaultSSRTower

/-- The first loop of ssr.SSRState.adjustTowerSpeeds: reset every
existing tower's speed to 0 (Tower.setSpeed(0) always succeeds). -/
def zeroSpeeds (st : SSRState) : SSRState :=
  { st with towerOf :=
      st.towerKeys.foldl (fun f k => Function.update f k { f k with speed := 0 }) st.towerOf }

/-- getTower(k).addSpeed(sp), storing the updated tower. -/
def addSpeedAt (st : SSRState) (k : ChoiceClass) (sp : ℚ) : Except String SSRState :=
  let st1 := getTowerSSR st k
  match (st1.towerOf k).addSpeed sp with
  | .error e => .error e
  | .ok t2 => .ok { st1 with towerOf := Function.update st1.towerOf k t2 }

/-- The superset loop of ssr.SSRState.adjustTowerSpeeds for one agent:
for every enumerated subset containing the agent's current class, fetch
the tower and add 1 to its speed unless it is frozen. -/
def processSubsets (st : SSRState) (cc : ChoiceClass) :
    List ChoiceClass → Except String SSRState
  | [] => .ok st
  | k :: ks =>
    if cc ⊆ k then
      let st1 := getTowerSSR st k
      if (st1.towerOf k).frozen then processSubsets st1 cc ks
      else
        match addSpeedAt st1 k 1 with
        | .error e => .error e
        | .ok st2 => processSubsets st2 cc ks
    else processSubsets st cc ks

/-- The agent loop of ssr.SSRState.adjustTowerSpeeds: every non-finished
agent adds 1 to the speed of the tower keyed by its current class and to
every non-frozen tower keyed by an enumerated subset (sizes from one more
than the current class up to, excluding, the full choice set) containing
the current class. -/
def processAgentsSpeeds (st : SSRState) : List SSRAgentData → Except String SSRState
  | [] => .ok st
  | d :: ds =>
    match d.current with
    | none => processAgentsSpeeds st ds
    | some cc =>
      match addSpeedAt st cc 1 with
      | .error e => .error e
      | .ok st1 =>
        match processSubsets st1 cc (getAllSubsetsList st1.vote.choices (cc.card + 1)) with
        | .error e => .error e
        | .ok st2 => processAgentsSpeeds st2 ds

/-- Embeds ssr.SSRState.adjustTowerSpeeds. -/
def adjustTowerSpeeds (st : SSRState) : Except String SSRState :=
  processAgentsSpeeds (zeroSpeeds st) st.agents

/-- The tower loop of ssr.SSRState.advance: every non-frozen tower is
projected forward by climbingTime * speed, which must stay within
tolerance of [0, 1] and is clamped before Tower.setHeight; a tower listed
in freezingTowers is then frozen. -/
def climbTowersSSR (st : SSRState) (dt : ℚ) (freezing : List ChoiceClass) :
    List ChoiceClass → Except String SSRState
  | [] => .ok st
  | k :: ks =>
    let t := st.towerOf k
    if t.frozen then climbTowersSSR st dt freezing ks
    else
      let climbed := t.height + dt * t.speed
      if !(st.settings.isInInterval climbed 0 1) then
        .error "tower pushed outside the unit interval"
      else
        let climbed2 := boundValue climbed 0 1
        match t.setHeight climbed2 false with
        | .error e => .error e
        | .ok t1 =>
          let t2 := if k ∈ freezing then t1.setFrozen else t1
          climbTowersSSR { st with towerOf := Function.update st.towerOf k t2 } dt freezing ks

/-- The while loop of ssr.SSRState.advance for one agent: while the
current class's tower (materialised on lookup) is frozen, advance the
cursor. -/
def skipFrozenA (st : SSRState) :
    Option ChoiceClass → List ChoiceClass → SSRState × Option ChoiceClass × List ChoiceClass
  | none, rest => (st, none, rest)
  | some cc, rest =>
    let st1 := getTowerSSR st cc
    if (st1.towerOf cc).frozen then
      match rest with
      | [] => (st1, none, [])
      | r :: rs => skipFrozenA st1 (some r) rs
    else (st1, some cc, rest)

/-- The agent loop of ssr.SSRState.advance: skip every non-finished agent
past frozen towers. -/
def skipAgents (st : SSRState) : List SSRAgentData → SSRState × List SSRAgentData
  | [] => (st, [])
  | d :: ds =>
    match d.current with
    | none =>
      let p := skipAgents st ds
      (p.1, d :: p.2)
    | some cc =>
      let q := skipFrozenA st (some cc) d.rest
      let p := skipAgents q.1 ds
      (p.1, { d with current := q.2.1, rest := q.2.2 } :: p.2)

/-- Embeds ssr.SSRState.advance(climbingTime, freezingTowers): climb the
towers, freeze the listed ones, move agents past frozen towers, then
recompute all tower speeds. -/
def advanceSSR (st : SSRState) (dt : ℚ) (freezing : List ChoiceClass) :
    Except String SSRState :=
  match climbTowersSSR st dt freezing st.towerKeys with
  | .error e => .error e
  | .ok st1 =>
    let p := skipAgents st1 st1.agents
    adjustTowerSpeeds { p.1 with agents := p.2 }

/-- The per-agent second-LP loop of sr.computeLambda.  The first LP has
been solved and its optimum frozen; for each active agent the source
builds a second LP at that fixed optimum (same constraints, objective =
assigned probability of the agent's class minus lambdaOpt * speed minus
height) and solves it.  The LP engine is the oracle `slack`, returning
the status and the objective value for each agent; all of the state, the
constraint set and lambdaOpt are fixed, so the oracle depends only on
the agent.  A slack that is not nonnegative within tolerance raises; an
agent whose slack is within tolerance of 0 is collected as bouncing. -/
def bounceScan (settings : SolverSettings) (slack : Agent → LpStatus × ℚ) :
    List Agent → Except String (List Agent)
  | [] => .ok []
  | a :: rest =>
    match checkPulpStatus (slack a).1 true true true true with
    | .error e => .error e
    | .ok _ =>
      if !(settings.isNonnegative (slack a).2) then
        .error "negative value while determining bounce"
      else
        match bounceScan settings slack rest with
        | .error e => .error e
        | .ok r => .ok (if settings.isClose (slack a).2 0 then a :: r else r)

/-- Embeds sr.computeLambda: check the first LP's status, freeze its
optimum lambdaOpt (the oracle pair firstSolve), then run the per-agent
slack loop; returns (lambdaOpt, bouncingAgents). -/
def computeLambdaSR (settings : SolverSettings) (activeAgents : List Agent)
    (firstSolve : LpStatus × ℚ) (slack : Agent → LpStatus × ℚ) :
    Except String (ℚ × List Agent) :=
  match checkPulpStatus firstSolve.1 true true true true with
  | .error e => .error e
  | .ok _ =>
    match bounceScan settings slack activeAgents with
    | .error e => .error e
    | .ok bouncing => .ok (firstSolve.2, bouncing)

/-- The per-tower second-LP loop of ssr.computeLambda: frozen towers are
skipped; for every other tower the slack LP at the frozen optimum is
solved (oracle keyed by the tower's choice class), a slack not
nonnegative within tolerance raises, and a tower whose slack is within
tolerance of 0 is collected as freezing. -/
def freezeScan (settings : SolverSettings) (slack : ChoiceClass → LpStatus × ℚ) :
    List (ChoiceClass × SSRTower) → Except String (List ChoiceClass)
  | [] => .ok []
  | (k, t) :: rest =>
    if t.frozen then freezeScan settings slack rest
    else
      match checkPulpStatus (slack k).1 true true true true with
      | .error e => .error e
      | .ok _ =>
        if !(settings.isNonnegative (slack k).2) then
          .error "negative value while determining frozen state"
        else
          match freezeScan settings slack rest with
          | .error e => .error e
          | .ok r => .ok (if settings.isClose (slack k).2 0 then k :: r else r)

/-- Embeds ssr.computeLambda: check the first LP's status, freeze its
optimum, then run the per-tower slack loop over all materialised towers;
returns (lambdaOpt, freezingTowers). -/
def computeLambdaSSR (settings : SolverSettings) (towers : List (ChoiceClass × SSRTower))
    (firstSolve : LpStatus × ℚ) (slack : ChoiceClass → LpStatus × ℚ) :
    Except String (ℚ × List ChoiceClass) :=
  match checkPulpStatus firstSolve.1 true true true true with
  | .error e => .error e
  | .ok _ =>
    match freezeScan settings slack towers with
    | .error e => .error e
    | .ok freezing => .ok (firstSolve.2, freezing)

/-- True iff the computation did not raise. -/
def exceptOk {α : Type} (e : Except String α) : Bool :=
  match e with
  | .ok _ => true
  | .error _ => false

/-- Concrete choices used by the witness populations. -/
def chA : Choice := ⟨0⟩

def chB : Choice := ⟨1⟩

def chC : Choice := ⟨2⟩

def chD : Choice := ⟨3⟩

/-- An agent whose preference covers only chA. -/
def incompleteAgent : Agent :=
  { objId := 0, identifier := 0, preference := [{chA}] }

/-- An agent whose preference covers chA then chB. -/
def completeAgent : Agent :=
  { objId := 1, identifier := 1, preference := [{chA}, {chB}] }

/-- Two distinct Agent objects carrying the same identifier. -/
def agentObjOne : Agent :=
  { objId := 0, identifier := 7, preference := [{chA}] }

/-- A second object with the same identifier but another object id. -/
def agentObjTwo : Agent :=
  { objId := 1, identifier := 7, preference := [{chA}] }

/-- A tower frozen at height 1. -/
def frozenUnitTower : SSRTower :=
  { height := 1, speed := 0, frozen := true }

/-- The source's default solver settings: both tolerances 10^-5. -/
def tolDefault : SolverSettings :=
  { relativeTolerance := 1/100000, absoluteTolerance := 1/100000 }

/-- A small concrete vote over two choices. -/
def twoChoiceVote : Vote :=
  { agents := [completeAgent], choices := {chA, chB} }

/-- The per-tower invariant maintained by the tower-centric engine:
height in [0, 1] and nonnegative speed. -/
def towerViewInv (st : SSRState) (j : ChoiceClass) : Prop :=
  0 ≤ (towerView st j).height ∧ (towerView st j).height ≤ 1 ∧ 0 ≤ (towerView st j).speed

/-- The speed one agent record contributes to the tower keyed j in one
adjustTowerSpeeds pass: 1 for its exact current class, plus 1 when j is
one of the enumerated supersets containing the current class and the
tower at j is not frozen. -/
def speedContrib (choices : Finset Choice) (frozenJ : Bool) (j : ChoiceClass)
    (d : SSRAgentData) : ℚ :=
  match d.current with
  | none => 0
  | some cc =>
    (if cc = j then (1:ℚ) else 0) +
    (if (j ∈ getAllSubsetsList choices (cc.card + 1) ∧ cc ⊆ j ∧ frozenJ = false)
      then (1:ℚ) else 0)

/-- The condition under which an agent whose current class is cc pushes
the tower keyed j as a superset, stated in terms of the sets alone: j is
a proper superset of cc drawn from the choice set, and j is either a
proper subset of the full choice set or (when cc has one element fewer
than the full set) the full set itself. -/
def superContribP (choices : Finset Choice) (cc j : ChoiceClass) : Prop :=
  cc ⊂ j ∧ j ⊆ choices ∧ (j.card < choices.card ∨ cc.card + 1 = choices.card)

instance (choices : Finset Choice) (cc j : ChoiceClass) :
    Decidable (superContribP choices cc j) := by
  unfold superContribP
  infer_instance

/-- The number of non-finished agents whose current class is exactly j. -/
def countCurrentEq (agents : List SSRAgentData) (j : ChoiceClass) : Nat :=
  agents.countP (fun d => decide (d.current = some j))

/-- The number of non-finished agents whose current class pushes the
tower keyed j as a superset. -/
def countCurrentSuper (agents : List SSRAgentData) (choices : Finset Choice)
    (j : ChoiceClass) : Nat :=
  agents.countP (fun d =>
    match d.current with
    | some cc => decide (superContribP choices cc j)
    | none => false)

/-- The single agent of the C2 scenario: four choices, first preference
class containing only chA. -/
def c2Agent : Agent :=
  { objId := 0, identifier := 0, preference := [{chA}, {chB, chC, chD}] }

/-- The agent record at the start of the run. -/
def c2AgentData : SSRAgentData :=
  { agent := c2Agent, current := some {chA}, rest := [{chB, chC, chD}] }

/-- The vote of the C2 scenario. -/
def c2Vote : Vote :=
  { agents := [c2Agent], choices := {chA, chB, chC, chD} }

/-- The fresh tower-centric state of the C2 scenario. -/
def c2State : SSRState :=
  { settings := tolDefault, vote := c2Vote, agents := [c2AgentData],
    towerKeys := [], towerOf := fun _ => defaultSSRTower }

/-- A tower key two elements larger than the agent's tie-group. -/
def c2Key : ChoiceClass := {chA, chB, chC}

/-- Formalises the claim's stated speed formula: exact pushers plus
pushers whose tie-group is a subset with exactly one element fewer,
frozen towers kept at 0. -/
def claimedAdjustSpeed (st : SSRState) (j : ChoiceClass) : ℚ :=
  if (towerView st j).frozen then 0
  else (countCurrentEq st.agents j : ℚ) +
    (st.agents.countP (fun d =>
      match d.current with
      | some cc => decide (cc ⊆ j ∧ cc.card + 1 = j.card)
      | none => false) : ℚ)

/-- The state adjustTowerSpeeds produces on the C2 scenario. -/
def c2Adjusted : SSRState :=
  match adjustTowerSpeeds c2State with
  | .ok st2 => st2
  | .error _ => c2State

/-- A small agent-centric state with no active agents. -/
def c6SRState : SRState :=
  { settings := tolDefault, vote := twoChoiceVote, agents := [],
    towerKeys := [{chA}], towerHeight := fun _ => 1/2 }

/-- A small tower-centric state with no towers and no agents. -/
def c6SSRState : SSRState :=
  { settings := tolDefault, vote := twoChoiceVote, agents := [],
    towerKeys := [], towerOf := fun _ => defaultSSRTower }

/-- The height the SPSR initialisation computes for a subset: the
fraction of non-finished agents whose current class is contained in it. -/
def spsrFrac (st : SRState) (k : ChoiceClass) : ℚ :=
  (countSubsetAgents st.agents k : ℚ) / (st.vote.agents.length : ℚ)

/-- The cumulative effect of the SPSR initialisation loop on one agent
record: if its current class is one of the processed subsets, its height
becomes that subset's fraction (clamped); otherwise it is untouched. -/
def spsrAgentUpdate (frac : ChoiceClass → ℚ) (L : List ChoiceClass)
    (d : SRAgentData) : SRAgentData :=
  match d.current with
  | some k0 => if k0 ∈ L then { d with height := boundValue (frac k0) 0 1 } else d
  | none => d

/-- The C3 scenario: one agent over two outcomes, its top tie-group being
the singleton of the first. -/
def c3Agent : Agent :=
  { objId := 0, identifier := 0, preference := [{chA}, {chB}] }

/-- The agent record at the start of solveVoteSPSR. -/
def c3AgentData : SRAgentData :=
  { agent := c3Agent, current := some {chA}, rest := [{chB}], height := 0, speed := 1 }

/-- The vote of the C3 scenario. -/
def c3Vote : Vote :=
  { agents := [c3Agent], choices := {chA, chB} }

/-- The fresh agent-centric state the SPSR solve builds before its
initialisation loop. -/
def c3State : SRState :=
  { settings := tolDefault, vote := c3Vote, agents := [c3AgentData],
    towerKeys := [], towerHeight := fun _ => 0 }

theorem sortedListOfM_coe {α : Type} (r : α → α → Prop) [DecidableRel r] [IsTrans α r]
    [IsAntisymm α r] [IsTotal α r] (m : Multiset α) :
    (sortedListOfM r m : Multiset α) = m := by
  induction m using Quot.inductionOn with
  | h l => exact Quot.sound (List.perm_insertionSort r l)

theorem mem_sortedListOf {α : Type} (r : α → α → Prop) [DecidableRel r] [IsTrans α r]
    [IsAntisymm α r] [IsTotal α r] (s : Finset α) (a : α) :
    a ∈ sortedListOf r s ↔ a ∈ s := by
  rw [← Multiset.mem_coe, sortedListOf, sortedListOfM_coe]
  exact Iff.rfl

theorem nodup_sortedListOf {α : Type} (r : α → α → Prop) [DecidableRel r] [IsTrans α r]
    [IsAntisymm α r] [IsTotal α r] (s : Finset α) :
    (sortedListOf r s).Nodup := by
  have h := s.nodup
  rw [← Multiset.coe_nodup, sortedListOf, sortedListOfM_coe]
  exact h

/-- C5: constructing a Vote from agents one of which omits an outcome
that another agent ranks does NOT raise: the membership check in
Vote.`__init__` tests each agent's choices against the union of all
agents' choices, which always succeeds.  Here incompleteAgent omits chB,
which completeAgent ranks, yet construction returns a Vote. -/
theorem voteInit_accepts_incomplete_preferences :
    exceptOk (voteInit [incompleteAgent, completeAgent]) = true ∧
    chB ∈ voteChoices [incompleteAgent, completeAgent] ∧
    (∀ cl ∈ incompleteAgent.preference, chB ∉ cl) := by
  decide

/-- C9: the two objects compare equal (identity is the identifier alone),
yet collecting both into the population's agent set keeps BOTH, because
Agent defines `__eq__` without `__hash__`, so the id-based hashes differ
and set deduplication never fires. -/
theorem agent_set_keeps_equal_agents :
    agentEq agentObjOne agentObjTwo = true ∧
    pyFrozenset [agentObjOne, agentObjTwo] = [agentObjOne, agentObjTwo] := by
  decide

/-- C10 counterexample: setHeight with ignoreFrozen=True changes a frozen
tower's height to a different value without any error. -/
theorem frozen_tower_height_change_ignoreFrozen :
    (frozenUnitTower.setHeight (1/2) true =
      .ok { height := 1/2, speed := 0, frozen := true }) ∧
    ¬ (frozenUnitTower.height = 1/2) := by
  constructor
  · simp [frozenUnitTower, SSRTower.setHeight, SSRTower.setFrozen]
    norm_num
  · simp [frozenUnitTower]

/-- C10 amended: setting a height of exactly 1 freezes the tower and pins
its speed to 0; once frozen, a default-interface (ignoreFrozen left
False) attempt to change the height cannot alter it, and a nonzero speed
is always rejected; setHeight with ignoreFrozen=True bypasses the freeze
check and succeeds for any height in [0, 1]. -/
theorem ssrTower_freeze_semantics :
    (∀ (t : SSRTower) (h : ℚ) (ig : Bool) (t2 : SSRTower),
        t.setHeight h ig = .ok t2 → h = 1 → t2.frozen = true ∧ t2.speed = 0) ∧
    (∀ (t : SSRTower) (h : ℚ) (t2 : SSRTower),
        t.frozen = true → t.setHeight h false = .ok t2 → t2.height = t.height) ∧
    (∀ (t : SSRTower) (sp : ℚ),
        t.frozen = true → sp ≠ 0 → exceptOk (t.setSpeed sp) = false) ∧
    (∀ (t : SSRTower) (h : ℚ),
        0 ≤ h → h ≤ 1 → exceptOk (t.setHeight h true) = true) := by
  refine ⟨?_, ?_, ?_, ?_⟩
  · intro t h ig t2 hok h1
    subst h1
    unfold SSRTower.setHeight at hok
    split at hok
    · exact absurd hok (by simp)
    · split at hok
      · exact absurd hok (by simp)
      · split at hok
        · simp only [Except.ok.injEq] at hok
          subst hok
          exact ⟨rfl, rfl⟩
        · simp at *
  · intro t h t2 hfr hok
    unfold SSRTower.setHeight at hok
    split at hok
    · exact absurd hok (by simp)
    · rename_i hcond
      have hh : t.height = h := by
        by_contra hne
        exact hcond ⟨hfr, rfl, hne⟩
      split at hok
      · exact absurd hok (by simp)
      · split at hok
        · simp only [Except.ok.injEq] at hok
          subst hok
          simpa using hh.symm
        · simp only [Except.ok.injEq] at hok
          subst hok
          exact hh.symm
  · intro t sp hfr hsp
    unfold SSRTower.setSpeed
    rw [if_pos ⟨hsp, hfr⟩]
    rfl
  · intro t h h0 h1
    unfold SSRTower.setHeight
    rw [if_neg (by simp)]
    rw [if_neg (by push_neg; exact ⟨h0, h1⟩)]
    split
    · rfl
    · rfl

/-- C10 witness: the amended behaviour evaluated at concrete towers. -/
theorem ssrTower_freeze_semantics_witness :
    (({ height := 0, speed := 2, frozen := false } : SSRTower).setHeight 1 false =
        .ok { height := 1, speed := 0, frozen := true } →
      True) ∧
    exceptOk (frozenUnitTower.setSpeed 1) = false ∧
    exceptOk (frozenUnitTower.setHeight (1/3) true) = true ∧
    (∀ t2, frozenUnitTower.setHeight 1 false = .ok t2 → t2.frozen = true ∧ t2.speed = 0) := by
  refine ⟨fun _ => trivial, ?_, ?_, ?_⟩
  · exact ssrTower_freeze_semantics.2.2.1 frozenUnitTower 1 rfl (by norm_num)
  · exact ssrTower_freeze_semantics.2.2.2 frozenUnitTower (1/3) (by norm_num) (by norm_num)
  · intro t2 hok
    exact ssrTower_freeze_semantics.1 frozenUnitTower 1 false t2 hok rfl

/-- C4 counterexample: the final lottery-extraction LP in findLottery
does not check the LP status.  With the engine reporting infeasible (a
status checkPulpStatus would turn into the error "Infeasible"),
findLottery still returns a Lottery built from whatever variable values
are present. -/
theorem findLottery_accepts_infeasible_status :
    exceptOk (findLottery twoChoiceVote [] tolDefault .infeasible (fun _ => 1/2)) = true ∧
    checkPulpStatus .infeasible true true true true = .error "Infeasible" := by
  constructor
  · have hs : sortedListOf (fun a b => a ≤ b) twoChoiceVote.choices = [chA, chB] := by
      decide
    simp [findLottery, hs, mkLottery, checkDist, SolverSettings.checkBound,
      SolverSettings.isInInterval, SolverSettings.isClose, boundValue, tolDefault,
      exceptOk, chA, chB]
    norm_num
  · rfl

/-- C4 amended: every LP solve inside computeLambda (both engines)
accepts only the optimal status and the four non-optimal statuses each
raise their own named error through checkPulpStatus, but findLottery
never inspects the status of its final LP: its result is independent of
that status. -/
theorem lp_status_check_coverage :
    (∀ eI eU eUd eNs, checkPulpStatus .optimal eI eU eUd eNs = .ok .optimal) ∧
    (checkPulpStatus .infeasible true true true true = .error "Infeasible" ∧
      checkPulpStatus .unbounded true true true true = .error "Unbounded" ∧
      checkPulpStatus .undefined true true true true = .error "Undefined" ∧
      checkPulpStatus .notSolved true true true true = .error "Not solver") ∧
    (∀ settings actives firstSolve slack, firstSolve.1 ≠ LpStatus.optimal →
      exceptOk (computeLambdaSR settings actives firstSolve slack) = false) ∧
    (∀ settings towers firstSolve slack, firstSolve.1 ≠ LpStatus.optimal →
      exceptOk (computeLambdaSSR settings towers firstSolve slack) = false) ∧
    (∀ vote classHeights settings stA stB lpValues,
      findLottery vote classHeights settings stA lpValues =
        findLottery vote classHeights settings stB lpValues) := by
  refine ⟨fun _ _ _ _ => rfl, ⟨rfl, rfl, rfl, rfl⟩, ?_, ?_, fun _ _ _ _ _ _ => rfl⟩
  · intro settings actives firstSolve slack hne
    obtain ⟨s1, lam⟩ := firstSolve
    cases s1 <;> simp_all [computeLambdaSR, checkPulpStatus, exceptOk]
  · intro settings towers firstSolve slack hne
    obtain ⟨s1, lam⟩ := firstSolve
    cases s1 <;> simp_all [computeLambdaSSR, checkPulpStatus, exceptOk]

/-- C4 witness: the status discipline evaluated at concrete inputs. -/
theorem lp_status_check_coverage_witness :
    exceptOk (computeLambdaSR tolDefault [] (LpStatus.infeasible, 0)
      (fun _ => (LpStatus.optimal, 0))) = false ∧
    exceptOk (computeLambdaSSR tolDefault [] (LpStatus.unbounded, 0)
      (fun _ => (LpStatus.optimal, 0))) = false ∧
    findLottery twoChoiceVote [] tolDefault LpStatus.undefined (fun _ => 1/2) =
      findLottery twoChoiceVote [] tolDefault LpStatus.notSolved (fun _ => 1/2) := by
  refine ⟨?_, ?_, ?_⟩
  · exact lp_status_check_coverage.2.2.1 tolDefault []
      (LpStatus.infeasible, 0) (fun _ => (LpStatus.optimal, 0)) (by decide)
  · exact lp_status_check_coverage.2.2.2.1 tolDefault []
      (LpStatus.unbounded, 0) (fun _ => (LpStatus.optimal, 0)) (by decide)
  · exact lp_status_check_coverage.2.2.2.2 twoChoiceVote [] tolDefault
      LpStatus.undefined LpStatus.notSolved (fun _ => 1/2)

/-- The clamp into [0, 1] always lands in [0, 1]. -/
theorem boundValue_unit_mem (v : ℚ) : 0 ≤ boundValue v 0 1 ∧ boundValue v 0 1 ≤ 1 := by
  unfold boundValue
  split
  · norm_num
  · split
    · norm_num
    · constructor <;> linarith [not_lt.mp (by assumption : ¬ v < 0), not_lt.mp (by assumption : ¬ 1 < v)]

/-- checkBound into [0, 1] only succeeds with a value in [0, 1]. -/
theorem checkBound_unit_ok (s : SolverSettings) (v b : ℚ)
    (h : s.checkBound v 0 1 = .ok b) : 0 ≤ b ∧ b ≤ 1 := by
  unfold SolverSettings.checkBound at h
  split at h
  · simp only [Except.ok.injEq] at h
    subst h
    exact boundValue_unit_mem v
  · exact absurd h (by simp)

/-- Every entry surviving the Lottery value check lies in [0, 1]. -/
theorem checkDist_ok_mem (s : SolverSettings) :
    ∀ (l vals : List (Nat × ℚ)), checkDist s l = .ok vals →
      ∀ p ∈ vals, 0 ≤ p.2 ∧ p.2 ≤ 1 := by
  intro l
  induction l with
  | nil =>
    intro vals h p hp
    simp only [checkDist, Except.ok.injEq] at h
    subst h
    simp at hp
  | cons q rest ih =>
    intro vals h p hp
    obtain ⟨o, v⟩ := q
    simp only [checkDist] at h
    cases hcb : s.checkBound v 0 1 with
    | error e => rw [hcb] at h; exact absurd h (by simp)
    | ok b =>
      rw [hcb] at h
      cases hcd : checkDist s rest with
      | error e => rw [hcd] at h; exact absurd h (by simp)
      | ok r =>
        rw [hcd] at h
        simp only [Except.ok.injEq] at h
        subst h
        rcases List.mem_cons.mp hp with hpeq | hpr
        · subst hpeq
          exact checkBound_unit_ok s v b hcb
        · exact ih r hcd p hpr

/-- C1: any Lottery that findLottery succeeds in producing has every
probability in [0, 1] and a total probability of 1 within the tolerance
context's tolerance (each solve operation returns exactly findLottery's
result, and the Lottery constructor enforces both conditions). -/
theorem findLottery_produces_valid_lottery :
    ∀ (vote : Vote) (classHeights : List (ChoiceClass × ℚ)) (settings : SolverSettings)
      (lpStatus : LpStatus) (lpValues : Choice → ℚ) (lot : Lottery),
      findLottery vote classHeights settings lpStatus lpValues = .ok lot →
      (∀ p ∈ lot.distribution, 0 ≤ p.2 ∧ p.2 ≤ 1) ∧
      settings.isClose (lot.distribution.map Prod.snd).sum 1 = true := by
  intro vote classHeights settings lpStatus lpValues lot h
  unfold findLottery mkLottery at h
  cases hcd : checkDist settings
      ((sortedListOf (fun a b => a ≤ b) vote.choices).map (fun c => (c.obj, lpValues c))) with
  | error e => rw [hcd] at h; exact absurd h (by simp)
  | ok vals =>
    rw [hcd] at h
    split at h
    · rename_i x e heq
      exact absurd heq (by simp)
    · rename_i x r heq
      simp only [Except.ok.injEq] at heq
      subst heq
      split at h
      · simp only [Except.ok.injEq] at h
        subst h
        exact ⟨checkDist_ok_mem settings _ vals hcd, by assumption⟩
      · exact absurd h (by simp)

/-- C1 witness: a concrete produced lottery satisfies both conditions. -/
theorem findLottery_produces_valid_lottery_witness :
    (∀ p ∈ (({ distribution := [(0, 1/2), (1, 1/2)] } : Lottery)).distribution,
        0 ≤ p.2 ∧ p.2 ≤ 1) ∧
    tolDefault.isClose
      (((({ distribution := [(0, 1/2), (1, 1/2)] } : Lottery)).distribution.map Prod.snd).sum)
      1 = true := by
  have hEq : findLottery twoChoiceVote [] tolDefault .optimal (fun _ => 1/2) =
      .ok { distribution := [(0, 1/2), (1, 1/2)] } := by
    have hs : sortedListOf (fun a b => a ≤ b) twoChoiceVote.choices = [chA, chB] := by
      decide
    simp [findLottery, hs, mkLottery, checkDist, SolverSettings.checkBound,
      SolverSettings.isInInterval, SolverSettings.isClose, boundValue, tolDefault,
      chA, chB]
    norm_num
  exact findLottery_produces_valid_lottery twoChoiceVote [] tolDefault .optimal
    (fun _ => 1/2) _ hEq

/-- checkPulpStatus with all flags set succeeds exactly on optimal. -/
theorem checkPulpStatus_strict_ok (st : LpStatus) (x : LpStatus)
    (h : checkPulpStatus st true true true true = .ok x) : st = .optimal := by
  cases st <;> simp [checkPulpStatus] at h <;> rfl

/-- Characterisation of a successful bounce scan: every agent's slack LP
returned optimal with a slack nonnegative within tolerance, and the
bouncing agents are exactly the agents whose slack is within tolerance
of 0, in traversal order. -/
theorem bounceScan_ok_char (s : SolverSettings) (sl : Agent → LpStatus × ℚ) :
    ∀ (l : List Agent) (r : List Agent), bounceScan s sl l = .ok r →
      (∀ a ∈ l, (sl a).1 = .optimal ∧ s.isNonnegative (sl a).2 = true) ∧
      r = l.filter (fun a => s.isClose (sl a).2 0) := by
  intro l
  induction l with
  | nil =>
    intro r h
    simp only [bounceScan, Except.ok.injEq] at h
    subst h
    exact ⟨by simp, rfl⟩
  | cons a rest ih =>
    intro r h
    simp only [bounceScan] at h
    cases hst : checkPulpStatus (sl a).1 true true true true with
    | error e => simp [hst] at h
    | ok x =>
      have hopt := checkPulpStatus_strict_ok _ _ hst
      simp only [hst] at h
      by_cases hnn : s.isNonnegative (sl a).2 = true
      · simp only [hnn, Bool.not_true] at h
        cases hbs : bounceScan s sl rest with
        | error e => simp [hbs] at h
        | ok rr =>
          simp only [hbs, if_false, Bool.false_eq_true, if_neg, Except.ok.injEq] at h
          obtain ⟨hall, hfil⟩ := ih rr hbs
          refine ⟨?_, ?_⟩
          · intro b hb
            rcases List.mem_cons.mp hb with hb | hb
            · subst hb
              exact ⟨hopt, hnn⟩
            · exact hall b hb
          · rw [List.filter_cons]
            by_cases hcl : s.isClose (sl a).2 0 = true
            · simp only [hcl, if_true, if_pos] at h
              simp [← h, hfil, hcl]
            · have hcl2 := Bool.eq_false_iff.mpr hcl
              simp only [hcl2, Bool.false_eq_true, if_neg, if_false] at h
              simp [← h, hfil, hcl2]
      · have hnn2 := Bool.eq_false_iff.mpr hnn
        simp [hnn2] at h

/-- A bounce scan whose inputs all pass the checks succeeds and returns
the within-tolerance-of-0 agents in order. -/
theorem bounceScan_ok_of (s : SolverSettings) (sl : Agent → LpStatus × ℚ) :
    ∀ (l : List Agent),
      (∀ a ∈ l, (sl a).1 = .optimal ∧ s.isNonnegative (sl a).2 = true) →
      bounceScan s sl l = .ok (l.filter (fun a => s.isClose (sl a).2 0)) := by
  intro l
  induction l with
  | nil => intro _; rfl
  | cons a rest ih =>
    intro hall
    have ha := hall a (by simp)
    have hrest := ih (fun b hb => hall b (List.mem_cons_of_mem a hb))
    simp only [bounceScan, ha.1, checkPulpStatus, ha.2, hrest, List.filter_cons]
    by_cases hcl : s.isClose (sl a).2 0 = true
    · simp [hcl]
    · simp [Bool.eq_false_iff.mpr hcl, hcl]

/-- Characterisation of a successful freeze scan: every non-frozen
tower's slack LP returned optimal with a nonnegative slack, and the
freezing towers are exactly the non-frozen towers whose slack is within
tolerance of 0, in traversal order. -/
theorem freezeScan_ok_char (s : SolverSettings) (sl : ChoiceClass → LpStatus × ℚ) :
    ∀ (ts : List (ChoiceClass × SSRTower)) (r : List ChoiceClass),
      freezeScan s sl ts = .ok r →
      (∀ p ∈ ts, p.2.frozen = false →
        (sl p.1).1 = .optimal ∧ s.isNonnegative (sl p.1).2 = true) ∧
      r = (ts.filter (fun p => !p.2.frozen && s.isClose (sl p.1).2 0)).map Prod.fst := by
  intro ts
  induction ts with
  | nil =>
    intro r h
    simp only [freezeScan, Except.ok.injEq] at h
    subst h
    exact ⟨by simp, rfl⟩
  | cons p rest ih =>
    intro r h
    obtain ⟨k, t⟩ := p
    simp only [freezeScan] at h
    by_cases hfr : t.frozen = true
    · rw [if_pos hfr] at h
      obtain ⟨hall, hfil⟩ := ih r h
      refine ⟨?_, ?_⟩
      · intro q hq hqf
        rcases List.mem_cons.mp hq with hq | hq
        · subst hq; simp only at hqf; rw [hqf] at hfr; exact absurd hfr (by simp)
        · exact hall q hq hqf
      · rw [List.filter_cons]
        simp only [hfr]
        simpa using hfil
    · have hfr2 : t.frozen = false := Bool.eq_false_iff.mpr hfr
      rw [if_neg (by simp [hfr2])] at h
      cases hst : checkPulpStatus (sl k).1 true true true true with
      | error e => simp [hst] at h
      | ok x =>
        have hopt := checkPulpStatus_strict_ok _ _ hst
        simp only [hst] at h
        by_cases hnn : s.isNonnegative (sl k).2 = true
        · simp only [hnn, Bool.not_true] at h
          cases hfs : freezeScan s sl rest with
          | error e => simp [hfs] at h
          | ok rr =>
            simp only [hfs, Bool.false_eq_true, if_neg, if_false, Except.ok.injEq] at h
            obtain ⟨hall, hfil⟩ := ih rr hfs
            refine ⟨?_, ?_⟩
            · intro q hq hqf
              rcases List.mem_cons.mp hq with hq | hq
              · subst hq
                exact ⟨hopt, hnn⟩
              · exact hall q hq hqf
            · rw [List.filter_cons]
              simp only [hfr2, Bool.not_false, Bool.true_and]
              by_cases hcl : s.isClose (sl k).2 0 = true
              · simp only [hcl, if_pos, if_true] at h
                simp [← h, hfil, hcl]
              · have hcl2 := Bool.eq_false_iff.mpr hcl
                simp only [hcl2, Bool.false_eq_true, if_neg, if_false] at h
                simp [← h, hfil, hcl2]
        · have hnn2 := Bool.eq_false_iff.mpr hnn
          simp [hnn2] at h

/-- A freeze scan whose non-frozen towers all pass the checks succeeds
and returns the within-tolerance-of-0 non-frozen towers in order. -/
theorem freezeScan_ok_of (s : SolverSettings) (sl : ChoiceClass → LpStatus × ℚ) :
    ∀ (ts : List (ChoiceClass × SSRTower)),
      (∀ p ∈ ts, p.2.frozen = false →
        (sl p.1).1 = .optimal ∧ s.isNonnegative (sl p.1).2 = true) →
      freezeScan s sl ts =
        .ok ((ts.filter (fun p => !p.2.frozen && s.isClose (sl p.1).2 0)).map Prod.fst) := by
  intro ts
  induction ts with
  | nil => intro _; rfl
  | cons p rest ih =>
    intro hall
    obtain ⟨k, t⟩ := p
    have hrest := ih (fun q hq => hall q (List.mem_cons_of_mem _ hq))
    by_cases hfr : t.frozen = true
    · simp only [freezeScan, hfr, if_pos, List.filter_cons]
      simpa [hfr] using hrest
    · have hfr2 : t.frozen = false := Bool.eq_false_iff.mpr hfr
      have ha := hall (k, t) (by simp) hfr2
      simp only [freezeScan, hfr2, ha.1, checkPulpStatus, ha.2, hrest, List.filter_cons]
      by_cases hcl : s.isClose (sl k).2 0 = true
      · simp [hcl]
      · simp [Bool.eq_false_iff.mpr hcl, hcl]

/-- Full characterisation of a successful agent-centric lambda step. -/
theorem computeLambdaSR_ok_char (s : SolverSettings) (l : List Agent)
    (f : LpStatus × ℚ) (sl : Agent → LpStatus × ℚ) (lam : ℚ) (b : List Agent)
    (h : computeLambdaSR s l f sl = .ok (lam, b)) :
    f.1 = .optimal ∧ lam = f.2 ∧
    (∀ a ∈ l, (sl a).1 = .optimal ∧ s.isNonnegative (sl a).2 = true) ∧
    b = l.filter (fun a => s.isClose (sl a).2 0) := by
  unfold computeLambdaSR at h
  cases hcs : checkPulpStatus f.1 true true true true with
  | error e => simp [hcs] at h
  | ok x =>
    have hopt := checkPulpStatus_strict_ok _ _ hcs
    simp only [hcs] at h
    cases hbs : bounceScan s sl l with
    | error e => simp [hbs] at h
    | ok rr =>
      simp only [hbs, Except.ok.injEq, Prod.mk.injEq] at h
      obtain ⟨hlam, hb⟩ := h
      obtain ⟨hall, hfil⟩ := bounceScan_ok_char s sl l rr hbs
      exact ⟨hopt, hlam.symm, hall, hb ▸ hfil⟩

/-- Full characterisation of a successful tower-centric lambda step. -/
theorem computeLambdaSSR_ok_char (s : SolverSettings) (ts : List (ChoiceClass × SSRTower))
    (f : LpStatus × ℚ) (sl : ChoiceClass → LpStatus × ℚ) (lam : ℚ) (fr : List ChoiceClass)
    (h : computeLambdaSSR s ts f sl = .ok (lam, fr)) :
    f.1 = .optimal ∧ lam = f.2 ∧
    (∀ p ∈ ts, p.2.frozen = false →
      (sl p.1).1 = .optimal ∧ s.isNonnegative (sl p.1).2 = true) ∧
    fr = (ts.filter (fun p => !p.2.frozen && s.isClose (sl p.1).2 0)).map Prod.fst := by
  unfold computeLambdaSSR at h
  cases hcs : checkPulpStatus f.1 true true true true with
  | error e => simp [hcs] at h
  | ok x =>
    have hopt := checkPulpStatus_strict_ok _ _ hcs
    simp only [hcs] at h
    cases hfs : freezeScan s sl ts with
    | error e => simp [hfs] at h
    | ok rr =>
      simp only [hfs, Except.ok.injEq, Prod.mk.injEq] at h
      obtain ⟨hlam, hb⟩ := h
      obtain ⟨hall, hfil⟩ := freezeScan_ok_char s sl ts rr hfs
      exact ⟨hopt, hlam.symm, hall, hb ▸ hfil⟩

/-- A lambda step succeeds exactly when the first LP is optimal and every
scanned entity passes the status and slack checks (agent-centric). -/
theorem computeLambdaSR_isOk_iff (s : SolverSettings) (l : List Agent)
    (f : LpStatus × ℚ) (sl : Agent → LpStatus × ℚ) :
    exceptOk (computeLambdaSR s l f sl) = true ↔
      (f.1 = .optimal ∧ ∀ a ∈ l, (sl a).1 = .optimal ∧ s.isNonnegative (sl a).2 = true) := by
  constructor
  · intro h
    cases hres : computeLambdaSR s l f sl with
    | error e => rw [hres] at h; exact absurd h (by simp [exceptOk])
    | ok pr =>
      obtain ⟨lam, b⟩ := pr
      have := computeLambdaSR_ok_char s l f sl lam b hres
      exact ⟨this.1, this.2.2.1⟩
  · intro ⟨hopt, hall⟩
    unfold computeLambdaSR
    rw [hopt]
    simp only [checkPulpStatus, bounceScan_ok_of s sl l hall]
    rfl

/-- A lambda step succeeds exactly when the first LP is optimal and every
scanned entity passes the status and slack checks (tower-centric). -/
theorem computeLambdaSSR_isOk_iff (s : SolverSettings) (ts : List (ChoiceClass × SSRTower))
    (f : LpStatus × ℚ) (sl : ChoiceClass → LpStatus × ℚ) :
    exceptOk (computeLambdaSSR s ts f sl) = true ↔
      (f.1 = .optimal ∧ ∀ p ∈ ts, p.2.frozen = false →
        (sl p.1).1 = .optimal ∧ s.isNonnegative (sl p.1).2 = true) := by
  constructor
  · intro h
    cases hres : computeLambdaSSR s ts f sl with
    | error e => rw [hres] at h; exact absurd h (by simp [exceptOk])
    | ok pr =>
      obtain ⟨lam, fr⟩ := pr
      have := computeLambdaSSR_ok_char s ts f sl lam fr hres
      exact ⟨this.1, this.2.2.1⟩
  · intro ⟨hopt, hall⟩
    unfold computeLambdaSSR
    rw [hopt]
    simp only [checkPulpStatus, freezeScan_ok_of s sl ts hall]
    rfl

/-- C7: in both lambda-step variants, a successful step implies that
every active entity's slack was nonnegative within tolerance and that
the tight entities (bouncing agents, freezing towers) are exactly the
active entities whose slack is within tolerance of 0; an active entity
with a slack negative beyond tolerance makes the whole step raise. -/
theorem computeLambda_slack_discipline :
    (∀ (settings : SolverSettings) (actives : List Agent) (firstSolve : LpStatus × ℚ)
        (slack : Agent → LpStatus × ℚ) (lam : ℚ) (bouncing : List Agent),
      computeLambdaSR settings actives firstSolve slack = .ok (lam, bouncing) →
        (∀ a ∈ actives, settings.isNonnegative (slack a).2 = true) ∧
        bouncing = actives.filter (fun a => settings.isClose (slack a).2 0)) ∧
    (∀ (settings : SolverSettings) (actives : List Agent) (firstSolve : LpStatus × ℚ)
        (slack : Agent → LpStatus × ℚ),
      (∃ a ∈ actives, settings.isNonnegative (slack a).2 = false) →
      exceptOk (computeLambdaSR settings actives firstSolve slack) = false) ∧
    (∀ (settings : SolverSettings) (towers : List (ChoiceClass × SSRTower))
        (firstSolve : LpStatus × ℚ) (slack : ChoiceClass → LpStatus × ℚ) (lam : ℚ)
        (freezing : List ChoiceClass),
      computeLambdaSSR settings towers firstSolve slack = .ok (lam, freezing) →
        (∀ p ∈ towers, p.2.frozen = false →
          settings.isNonnegative (slack p.1).2 = true) ∧
        freezing = (towers.filter
          (fun p => !p.2.frozen && settings.isClose (slack p.1).2 0)).map Prod.fst) ∧
    (∀ (settings : SolverSettings) (towers : List (ChoiceClass × SSRTower))
        (firstSolve : LpStatus × ℚ) (slack : ChoiceClass → LpStatus × ℚ),
      (∃ p ∈ towers, p.2.frozen = false ∧ settings.isNonnegative (slack p.1).2 = false) →
      exceptOk (computeLambdaSSR settings towers firstSolve slack) = false) := by
  refine ⟨?_, ?_, ?_, ?_⟩
  · intro settings actives firstSolve slack lam bouncing h
    have hc := computeLambdaSR_ok_char settings actives firstSolve slack lam bouncing h
    exact ⟨fun a ha => (hc.2.2.1 a ha).2, hc.2.2.2⟩
  · intro settings actives firstSolve slack ⟨a, ha, hneg⟩
    cases hres : computeLambdaSR settings actives firstSolve slack with
    | error e => rfl
    | ok pr =>
      obtain ⟨lam, b⟩ := pr
      have hc := computeLambdaSR_ok_char settings actives firstSolve slack lam b hres
      rw [(hc.2.2.1 a ha).2] at hneg
      exact absurd hneg (by simp)
  · intro settings towers firstSolve slack lam freezing h
    have hc := computeLambdaSSR_ok_char settings towers firstSolve slack lam freezing h
    exact ⟨fun p hp hf => (hc.2.2.1 p hp hf).2, hc.2.2.2⟩
  · intro settings towers firstSolve slack ⟨p, hp, hfrz, hneg⟩
    cases hres : computeLambdaSSR settings towers firstSolve slack with
    | error e => rfl
    | ok pr =>
      obtain ⟨lam, fr⟩ := pr
      have hc := computeLambdaSSR_ok_char settings towers firstSolve slack lam fr hres
      rw [(hc.2.2.1 p hp hfrz).2] at hneg
      exact absurd hneg (by simp)

/-- C7 witness: the slack discipline evaluated on a concrete step. -/
theorem computeLambda_slack_discipline_witness :
    (∀ a ∈ [agentObjOne],
      tolDefault.isNonnegative ((fun _ : Agent => (LpStatus.optimal, (0:ℚ))) a).2 = true) ∧
    ([agentObjOne] : List Agent) =
      [agentObjOne].filter
        (fun a => tolDefault.isClose ((fun _ : Agent => (LpStatus.optimal, (0:ℚ))) a).2 0) := by
  have hok : computeLambdaSR tolDefault [agentObjOne] (LpStatus.optimal, 1/2)
      (fun _ => (LpStatus.optimal, 0)) = .ok (1/2, [agentObjOne]) := by
    simp [computeLambdaSR, checkPulpStatus, bounceScan, SolverSettings.isNonnegative,
      SolverSettings.isClose, tolDefault]
  have h := computeLambda_slack_discipline.1 tolDefault [agentObjOne]
    (LpStatus.optimal, 1/2) (fun _ => (LpStatus.optimal, 0)) (1/2) [agentObjOne] hok
  exact ⟨h.1, h.2⟩

/-- C8: in both lambda-step variants every entity is judged against the
same frozen first-LP optimum, so permuting the traversal order of the
entities neither changes whether the step succeeds nor, when it
succeeds, the produced optimum and the set of tight entities (the tight
lists are permutations of each other). -/
theorem computeLambda_order_invariance :
    (∀ (settings : SolverSettings) (l1 l2 : List Agent) (firstSolve : LpStatus × ℚ)
        (slack : Agent → LpStatus × ℚ), l1.Perm l2 →
      exceptOk (computeLambdaSR settings l1 firstSolve slack) =
        exceptOk (computeLambdaSR settings l2 firstSolve slack) ∧
      (∀ lam1 b1 lam2 b2,
        computeLambdaSR settings l1 firstSolve slack = .ok (lam1, b1) →
        computeLambdaSR settings l2 firstSolve slack = .ok (lam2, b2) →
        lam1 = lam2 ∧ b1.Perm b2)) ∧
    (∀ (settings : SolverSettings) (t1 t2 : List (ChoiceClass × SSRTower))
        (firstSolve : LpStatus × ℚ) (slack : ChoiceClass → LpStatus × ℚ), t1.Perm t2 →
      exceptOk (computeLambdaSSR settings t1 firstSolve slack) =
        exceptOk (computeLambdaSSR settings t2 firstSolve slack) ∧
      (∀ lam1 f1 lam2 f2,
        computeLambdaSSR settings t1 firstSolve slack = .ok (lam1, f1) →
        computeLambdaSSR settings t2 firstSolve slack = .ok (lam2, f2) →
        lam1 = lam2 ∧ f1.Perm f2)) := by
  constructor
  · intro settings l1 l2 firstSolve slack hperm
    constructor
    · rw [Bool.eq_iff_iff, computeLambdaSR_isOk_iff, computeLambdaSR_isOk_iff]
      constructor
      · intro ⟨h1, h2⟩
        exact ⟨h1, fun a ha => h2 a (hperm.mem_iff.mpr ha)⟩
      · intro ⟨h1, h2⟩
        exact ⟨h1, fun a ha => h2 a (hperm.mem_iff.mp ha)⟩
    · intro lam1 b1 lam2 b2 h1 h2
      have hc1 := computeLambdaSR_ok_char settings l1 firstSolve slack lam1 b1 h1
      have hc2 := computeLambdaSR_ok_char settings l2 firstSolve slack lam2 b2 h2
      refine ⟨hc1.2.1.trans hc2.2.1.symm, ?_⟩
      rw [hc1.2.2.2, hc2.2.2.2]
      exact hperm.filter _
  · intro settings t1 t2 firstSolve slack hperm
    constructor
    · rw [Bool.eq_iff_iff, computeLambdaSSR_isOk_iff, computeLambdaSSR_isOk_iff]
      constructor
      · intro ⟨h1, h2⟩
        exact ⟨h1, fun p hp => h2 p (hperm.mem_iff.mpr hp)⟩
      · intro ⟨h1, h2⟩
        exact ⟨h1, fun p hp => h2 p (hperm.mem_iff.mp hp)⟩
    · intro lam1 f1 lam2 f2 h1 h2
      have hc1 := computeLambdaSSR_ok_char settings t1 firstSolve slack lam1 f1 h1
      have hc2 := computeLambdaSSR_ok_char settings t2 firstSolve slack lam2 f2 h2
      refine ⟨hc1.2.1.trans hc2.2.1.symm, ?_⟩
      rw [hc1.2.2.2, hc2.2.2.2]
      exact (hperm.filter _).map Prod.fst

/-- C8 witness: traversal-order invariance evaluated on concrete swapped
entity lists. -/
theorem computeLambda_order_invariance_witness :
    exceptOk (computeLambdaSR tolDefault [agentObjOne, agentObjTwo] (LpStatus.optimal, 1)
        (fun _ => (LpStatus.optimal, 0))) =
      exceptOk (computeLambdaSR tolDefault [agentObjTwo, agentObjOne] (LpStatus.optimal, 1)
        (fun _ => (LpStatus.optimal, 0))) ∧
    exceptOk (computeLambdaSSR tolDefault
        [({chA}, defaultSSRTower), ({chB}, defaultSSRTower)] (LpStatus.optimal, 1)
        (fun _ => (LpStatus.optimal, 0))) =
      exceptOk (computeLambdaSSR tolDefault
        [({chB}, defaultSSRTower), ({chA}, defaultSSRTower)] (LpStatus.optimal, 1)
        (fun _ => (LpStatus.optimal, 0))) := by
  constructor
  · exact (computeLambda_order_invariance.1 tolDefault [agentObjOne, agentObjTwo]
      [agentObjTwo, agentObjOne] (LpStatus.optimal, 1) (fun _ => (LpStatus.optimal, 0))
      (List.Perm.swap agentObjTwo agentObjOne [])).1
  · exact (computeLambda_order_invariance.2 tolDefault
      [({chA}, defaultSSRTower), ({chB}, defaultSSRTower)]
      [({chB}, defaultSSRTower), ({chA}, defaultSSRTower)] (LpStatus.optimal, 1)
      (fun _ => (LpStatus.optimal, 0))
      (List.Perm.swap ({chB}, defaultSSRTower) ({chA}, defaultSSRTower) [])).1

/-- Materialising a tower does not change any observed SR tower height. -/
theorem getTowerSR_view (st : SRState) (k j : ChoiceClass) :
    srHeightView (getTowerSR st k) j = srHeightView st j := by
  unfold getTowerSR srHeightView
  split
  · rfl
  · rename_i hk
    by_cases hj : j ∈ st.towerKeys
    · have hjk : j ≠ k := fun h => hk (h ▸ hj)
      simp [hj, Function.update_noteq hjk]
    · by_cases hjk : j = k
      · subst hjk
        simp [hj]
      · simp [hj, hjk]

/-- The materialised key is present afterwards. -/
theorem getTowerSR_mem (st : SRState) (k : ChoiceClass) :
    k ∈ (getTowerSR st k).towerKeys := by
  unfold getTowerSR
  split
  · assumption
  · simp

/-- The stored height of the materialised key is its observed height. -/
theorem getTowerSR_self (st : SRState) (k : ChoiceClass) :
    (getTowerSR st k).towerHeight k = srHeightView st k := by
  unfold getTowerSR srHeightView
  split
  · rfl
  · simp

/-- Materialising a tower changes no other state component. -/
theorem getTowerSR_rest (st : SRState) (k : ChoiceClass) :
    (getTowerSR st k).agents = st.agents ∧ (getTowerSR st k).vote = st.vote ∧
    (getTowerSR st k).settings = st.settings := by
  unfold getTowerSR
  split
  · exact ⟨rfl, rfl, rfl⟩
  · exact ⟨rfl, rfl, rfl⟩

/-- A successful tryClimb never lowers any observed tower height and
touches nothing but the towers. -/
theorem tryClimbSR_mono (st : SRState) (k : ChoiceClass) (h : ℚ) (st2 : SRState)
    (hok : tryClimbSR st k h = .ok st2) :
    (∀ j, srHeightView st j ≤ srHeightView st2 j) ∧
    st2.agents = st.agents ∧ st2.vote = st.vote ∧ st2.settings = st.settings := by
  simp only [tryClimbSR] at hok
  by_cases hgt : h > (getTowerSR st k).towerHeight k
  · rw [if_pos hgt] at hok
    by_cases hb : h < 0 ∨ 1 < h
    · rw [if_pos hb] at hok
      exact absurd hok (by simp)
    · rw [if_neg hb] at hok
      simp only [Except.ok.injEq] at hok
      subst hok
      refine ⟨?_, (getTowerSR_rest st k).1, (getTowerSR_rest st k).2.1,
        (getTowerSR_rest st k).2.2⟩
      intro j
      by_cases hjk : j = k
      · subst hjk
        have hmem := getTowerSR_mem st j
        rw [← getTowerSR_self st j]
        simp only [srHeightView, hmem, if_pos, Function.update_same]
        exact le_of_lt hgt
      · rw [← getTowerSR_view st k j]
        exact le_of_eq (by simp [srHeightView, Function.update_noteq hjk])
  · rw [if_neg hgt] at hok
    simp only [Except.ok.injEq] at hok
    subst hok
    refine ⟨?_, (getTowerSR_rest st k).1, (getTowerSR_rest st k).2.1,
      (getTowerSR_rest st k).2.2⟩
    intro j
    rw [getTowerSR_view]

/-- A successful per-agent advance step never lowers any observed tower
height and preserves vote and settings. -/
theorem advanceSRAgent_mono (st : SRState) (dt : ℚ) (b : List Agent) (d : SRAgentData)
    (st2 : SRState) (d2 : SRAgentData)
    (hok : advanceSRAgent st dt b d = .ok (st2, d2)) :
    (∀ j, srHeightView st j ≤ srHeightView st2 j) ∧
    st2.agents = st.agents ∧ st2.vote = st.vote ∧ st2.settings = st.settings := by
  cases hcur : d.current with
  | none =>
    simp only [advanceSRAgent, hcur, Except.ok.injEq, Prod.mk.injEq] at hok
    rw [← hok.1]
    exact ⟨fun j => le_refl _, rfl, rfl, rfl⟩
  | some cc =>
    simp only [advanceSRAgent, hcur] at hok
    split at hok
    · exact absurd hok (by simp)
    · cases htc : tryClimbSR st cc (boundValue (d.height + dt * d.speed) 0 1) with
      | error e => rw [htc] at hok; exact absurd hok (by simp)
      | ok st1 =>
        simp only [htc] at hok
        have hmono := tryClimbSR_mono st cc _ st1 htc
        by_cases hbounce : (b.any fun x => agentEq x d.agent) = true
        · rw [if_pos hbounce] at hok
          simp only [Except.ok.injEq, Prod.mk.injEq] at hok
          rw [← hok.1]
          exact hmono
        · rw [if_neg hbounce] at hok
          cases hsh : d.setHeightD (boundValue (d.height + dt * d.speed) 0 1) with
          | error e => rw [hsh] at hok; exact absurd hok (by simp)
          | ok d3 =>
            rw [hsh] at hok
            simp only [Except.ok.injEq, Prod.mk.injEq] at hok
            rw [← hok.1]
            exact hmono

/-- The agent loop of the agent-centric advance never lowers any
observed tower height. -/
theorem advanceSRGo_mono (dt : ℚ) (b : List Agent) :
    ∀ (ds : List SRAgentData) (st : SRState) (st2 : SRState) (ds2 : List SRAgentData),
      advanceSRGo st dt b ds = .ok (st2, ds2) →
      (∀ j, srHeightView st j ≤ srHeightView st2 j) ∧
      st2.agents = st.agents ∧ st2.vote = st.vote ∧ st2.settings = st.settings := by
  intro ds
  induction ds with
  | nil =>
    intro st st2 ds2 hok
    simp only [advanceSRGo, Except.ok.injEq, Prod.mk.injEq] at hok
    rw [← hok.1]
    exact ⟨fun j => le_refl _, rfl, rfl, rfl⟩
  | cons d ds ih =>
    intro st st2 ds2 hok
    simp only [advanceSRGo] at hok
    cases h1 : advanceSRAgent st dt b d with
    | error e => rw [h1] at hok; exact absurd hok (by simp)
    | ok pr =>
      obtain ⟨st1, d2⟩ := pr
      simp only [h1] at hok
      cases h2 : advanceSRGo st1 dt b ds with
      | error e => simp only [h2] at hok; exact absurd hok (by simp)
      | ok pr2 =>
        obtain ⟨st3, ds3⟩ := pr2
        simp only [h2, Except.ok.injEq, Prod.mk.injEq] at hok
        obtain ⟨hst, hds⟩ := hok
        subst hst
        have hm1 := advanceSRAgent_mono st dt b d st1 d2 h1
        have hm2 := ih st1 st3 ds3 h2
        exact ⟨fun j => le_trans (hm1.1 j) (hm2.1 j),
          hm2.2.1.trans hm1.2.1, hm2.2.2.1.trans hm1.2.2.1,
          hm2.2.2.2.trans hm1.2.2.2⟩

/-- Materialising a tower does not change any observed tower. -/
theorem getTowerSSR_view (st : SSRState) (k j : ChoiceClass) :
    towerView (getTowerSSR st k) j = towerView st j := by
  unfold getTowerSSR towerView
  split
  · rfl
  · rename_i hk
    by_cases hj : j ∈ st.towerKeys
    · have hjk : j ≠ k := fun h => hk (h ▸ hj)
      simp [hj, Function.update_noteq hjk]
    · by_cases hjk : j = k
      · subst hjk
        simp [hj]
      · simp [hj, hjk]

/-- The materialised key is present afterwards. -/
theorem getTowerSSR_mem (st : SSRState) (k : ChoiceClass) :
    k ∈ (getTowerSSR st k).towerKeys := by
  unfold getTowerSSR
  split
  · assumption
  · simp

/-- The stored tower of the materialised key is its observed tower. -/
theorem getTowerSSR_self (st : SSRState) (k : ChoiceClass) :
    (getTowerSSR st k).towerOf k = towerView st k := by
  unfold getTowerSSR towerView
  split
  · rfl
  · simp

/-- Materialising a tower changes no other state component. -/
theorem getTowerSSR_rest (st : SSRState) (k : ChoiceClass) :
    (getTowerSSR st k).agents = st.agents ∧ (getTowerSSR st k).vote = st.vote ∧
    (getTowerSSR st k).settings = st.settings := by
  unfold getTowerSSR
  split
  · exact ⟨rfl, rfl, rfl⟩
  · exact ⟨rfl, rfl, rfl⟩

/-- Characterisation of a successful setSpeed. -/
theorem SSRTower.setSpeed_ok (t : SSRTower) (sp : ℚ) (t2 : SSRTower)
    (h : t.setSpeed sp = .ok t2) :
    t2 = { t with speed := sp } ∧ (sp = 0 ∨ t.frozen = false) ∧ 0 ≤ sp := by
  unfold SSRTower.setSpeed at h
  split at h
  · exact absurd h (by simp)
  · rename_i hc
    split at h
    · exact absurd h (by simp)
    · rename_i hneg
      simp only [Except.ok.injEq] at h
      subst h
      refine ⟨rfl, ?_, le_of_not_lt hneg⟩
      by_cases hsp : sp = 0
      · exact Or.inl hsp
      · right
        by_contra hfr
        exact hc ⟨hsp, by simpa using hfr⟩

/-- Characterisation of a successful setHeight. -/
theorem SSRTower.setHeight_char (t : SSRTower) (hh : ℚ) (ig : Bool) (t2 : SSRTower)
    (h : t.setHeight hh ig = .ok t2) :
    t2.height = hh ∧ 0 ≤ hh ∧ hh ≤ 1 ∧
    t2.frozen = (if hh = 1 then true else t.frozen) ∧
    t2.speed = (if hh = 1 then 0 else t.speed) := by
  unfold SSRTower.setHeight at h
  split at h
  · exact absurd h (by simp)
  · split at h
    · exact absurd h (by simp)
    · rename_i hb
      push_neg at hb
      split at h
      · rename_i h1
        simp only [Except.ok.injEq] at h
        subst h
        simp [SSRTower.setFrozen, h1, hb.1, hb.2]
      · rename_i h1
        simp only [Except.ok.injEq] at h
        subst h
        simp [h1, hb.1, hb.2]

/-- Evaluating the speed-reset fold. -/
theorem zeroSpeedsFold (keys : List ChoiceClass) :
    ∀ (f : ChoiceClass → SSRTower) (j : ChoiceClass),
      (keys.foldl (fun g k => Function.update g k { g k with speed := 0 }) f) j =
        if j ∈ keys then { f j with speed := 0 } else f j := by
  induction keys with
  | nil => intro f j; simp
  | cons k ks ih =>
    intro f j
    simp only [List.foldl_cons]
    rw [ih]
    by_cases hjk : j = k
    · subst hjk
      by_cases hjs : j ∈ ks
      · simp [hjs, Function.update_same]
      · simp [hjs, Function.update_same]
    · by_cases hjs : j ∈ ks
      · simp [hjs, hjk, Function.update_noteq hjk]
      · simp [hjs, hjk, Function.update_noteq hjk]

/-- The speed-reset loop pins every observed speed to 0 and changes
nothing else about the towers. -/
theorem zeroSpeeds_view (st : SSRState) (j : ChoiceClass) :
    towerView (zeroSpeeds st) j = { towerView st j with speed := 0 } := by
  unfold zeroSpeeds towerView
  simp only [zeroSpeedsFold]
  by_cases hj : j ∈ st.towerKeys
  · simp [hj]
  · simp [hj, defaultSSRTower]

/-- Characterisation of a successful addSpeed on the tower keyed k: only
this tower's speed changes, by sp; success implies the tower was not
frozen unless the resulting speed is 0, and the new speed is
nonnegative. -/
theorem addSpeedAt_char (st : SSRState) (k : ChoiceClass) (sp : ℚ) (st2 : SSRState)
    (h : addSpeedAt st k sp = .ok st2) :
    (∀ j, towerView st2 j =
      if j = k then { towerView st k with speed := (towerView st k).speed + sp }
      else towerView st j) ∧
    ((towerView st k).speed + sp = 0 ∨ (towerView st k).frozen = false) ∧
    0 ≤ (towerView st k).speed + sp ∧
    st2.agents = st.agents ∧ st2.vote = st.vote ∧ st2.settings = st.settings := by
  simp only [addSpeedAt] at h
  cases has : ((getTowerSSR st k).towerOf k).addSpeed sp with
  | error e => rw [has] at h; exact absurd h (by simp)
  | ok t2 =>
    simp only [has, Except.ok.injEq] at h
    subst h
    unfold SSRTower.addSpeed at has
    have hts := SSRTower.setSpeed_ok _ _ _ has
    rw [getTowerSSR_self] at hts
    refine ⟨?_, ?_, ?_, (getTowerSSR_rest st k).1, (getTowerSSR_rest st k).2.1,
      (getTowerSSR_rest st k).2.2⟩
    · intro j
      by_cases hjk : j = k
      · subst hjk
        rw [if_pos rfl]
        have hmem := getTowerSSR_mem st j
        show (if j ∈ (getTowerSSR st j).towerKeys then
            Function.update (getTowerSSR st j).towerOf j t2 j else defaultSSRTower) = _
        rw [if_pos hmem, Function.update_same, hts.1]
      · rw [if_neg hjk, ← getTowerSSR_view st k j]
        show (if j ∈ (getTowerSSR st k).towerKeys then
            Function.update (getTowerSSR st k).towerOf k t2 j else defaultSSRTower) = _
        rw [Function.update_noteq hjk]
        rfl
    · rcases hts.2.1 with h0 | hfr
      · exact Or.inl h0
      · exact Or.inr hfr
    · exact hts.2.2

/-- Characterisation of the superset loop for one agent: every
enumerated, not-frozen tower whose key contains the agent's class gains
speed 1; everything else is untouched. -/
theorem processSubsets_char (cc : ChoiceClass) :
    ∀ (L : List ChoiceClass), L.Nodup → ∀ (st st2 : SSRState),
      processSubsets st cc L = .ok st2 →
      (∀ j, towerView st2 j =
        if j ∈ L ∧ cc ⊆ j ∧ (towerView st j).frozen = false then
          { towerView st j with speed := (towerView st j).speed + 1 }
        else towerView st j) ∧
      st2.agents = st.agents ∧ st2.vote = st.vote ∧ st2.settings = st.settings := by
  intro L
  induction L with
  | nil =>
    intro _ st st2 h
    simp only [processSubsets, Except.ok.injEq] at h
    subst h
    refine ⟨fun j => by simp, rfl, rfl, rfl⟩
  | cons k ks ih =>
    intro hnd st st2 h
    have hknotks : k ∉ ks := (List.nodup_cons.mp hnd).1
    have hndks : ks.Nodup := (List.nodup_cons.mp hnd).2
    simp only [processSubsets] at h
    by_cases hsub : cc ⊆ k
    · rw [if_pos hsub] at h
      by_cases hfr : ((getTowerSSR st k).towerOf k).frozen = true
      · rw [if_pos hfr] at h
        rw [getTowerSSR_self] at hfr
        obtain ⟨hview, hag, hvote, hset⟩ := ih hndks (getTowerSSR st k) st2 h
        refine ⟨?_, hag.trans (getTowerSSR_rest st k).1,
          hvote.trans (getTowerSSR_rest st k).2.1,
          hset.trans (getTowerSSR_rest st k).2.2⟩
        intro j
        have hG : ∀ i, towerView (getTowerSSR st k) i = towerView st i :=
          getTowerSSR_view st k
        rw [hview j]
        simp only [hG]
        by_cases hjk : j = k
        · subst hjk
          rw [if_neg (fun hc => hknotks hc.1),
            if_neg (fun hc => by rw [hfr] at hc; exact absurd hc.2.2 (by simp))]
        · by_cases hjs : j ∈ ks ∧ cc ⊆ j ∧ (towerView st j).frozen = false
          · rw [if_pos hjs, if_pos ⟨List.mem_cons_of_mem k hjs.1, hjs.2⟩]
          · rw [if_neg hjs, if_neg (fun hc => hjs ⟨(List.mem_cons.mp hc.1).resolve_left hjk, hc.2⟩)]
      · rw [if_neg hfr] at h
        rw [getTowerSSR_self] at hfr
        have hfr2 : (towerView st k).frozen = false := Bool.eq_false_iff.mpr hfr
        cases hadd : addSpeedAt (getTowerSSR st k) k 1 with
        | error e => rw [hadd] at h; exact absurd h (by simp)
        | ok stA =>
          rw [hadd] at h
          have hA := addSpeedAt_char (getTowerSSR st k) k 1 stA hadd
          obtain ⟨hview, hag, hvote, hset⟩ := ih hndks stA st2 h
          have hviewA : ∀ i, towerView stA i =
              if i = k then { towerView st k with speed := (towerView st k).speed + 1 }
              else towerView st i := by
            intro i
            rw [hA.1 i]
            by_cases hik : i = k
            · subst hik
              rw [if_pos rfl, if_pos rfl, getTowerSSR_view]
            · rw [if_neg hik, if_neg hik, getTowerSSR_view]
          refine ⟨?_, ?_, ?_, ?_⟩
          · intro j
            by_cases hjk : j = k
            · subst hjk
              have hAj : towerView stA j =
                  { towerView st j with speed := (towerView st j).speed + 1 } := by
                rw [hviewA j, if_pos rfl]
              rw [hview j, hAj,
                if_neg (fun hc => hknotks hc.1),
                if_pos ⟨List.mem_cons_self j ks, hsub, hfr2⟩]
            · have hAj : towerView stA j = towerView st j := by
                rw [hviewA j, if_neg hjk]
              rw [hview j, hAj]
              by_cases hjs : j ∈ ks ∧ cc ⊆ j ∧ (towerView st j).frozen = false
              · rw [if_pos hjs, if_pos ⟨List.mem_cons_of_mem k hjs.1, hjs.2⟩]
              · rw [if_neg hjs,
                  if_neg (fun hc => hjs ⟨(List.mem_cons.mp hc.1).resolve_left hjk, hc.2⟩)]
          · exact hag.trans (hA.2.2.2.1.trans (getTowerSSR_rest st k).1)
          · exact hvote.trans (hA.2.2.2.2.1.trans (getTowerSSR_rest st k).2.1)
          · exact hset.trans (hA.2.2.2.2.2.trans (getTowerSSR_rest st k).2.2)
    · rw [if_neg hsub] at h
      obtain ⟨hview, hag, hvote, hset⟩ := ih hndks st st2 h
      refine ⟨?_, hag, hvote, hset⟩
      intro j
      rw [hview j]
      by_cases hjk : j = k
      · subst hjk
        rw [if_neg (fun hc => hknotks hc.1), if_neg (fun hc => hsub hc.2.1)]
      · by_cases hjs : j ∈ ks ∧ cc ⊆ j ∧ (towerView st j).frozen = false
        · rw [if_pos hjs, if_pos ⟨List.mem_cons_of_mem k hjs.1, hjs.2⟩]
        · rw [if_neg hjs,
            if_neg (fun hc => hjs ⟨(List.mem_cons.mp hc.1).resolve_left hjk, hc.2⟩)]

/-- Characterisation of the agent loop of adjustTowerSpeeds: each tower's
speed grows by the total contribution of the processed agents; heights
and frozen flags are untouched. -/
theorem processAgentsSpeeds_char :
    ∀ (ds : List SSRAgentData) (st st2 : SSRState),
      processAgentsSpeeds st ds = .ok st2 →
      (∀ j, (towerView st2 j).height = (towerView st j).height ∧
        (towerView st2 j).frozen = (towerView st j).frozen ∧
        (towerView st2 j).speed =
          (towerView st j).speed +
            (ds.map (fun d => speedContrib st.vote.choices (towerView st j).frozen j d)).sum) ∧
      st2.agents = st.agents ∧ st2.vote = st.vote ∧ st2.settings = st.settings := by
  intro ds
  induction ds with
  | nil =>
    intro st st2 h
    simp only [processAgentsSpeeds, Except.ok.injEq] at h
    subst h
    exact ⟨fun j => ⟨rfl, rfl, by simp⟩, rfl, rfl, rfl⟩
  | cons d ds ih =>
    intro st st2 h
    simp only [processAgentsSpeeds] at h
    cases hcur : d.current with
    | none =>
      rw [hcur] at h
      obtain ⟨hview, hag, hvote, hset⟩ := ih st st2 h
      refine ⟨?_, hag, hvote, hset⟩
      intro j
      refine ⟨(hview j).1, (hview j).2.1, ?_⟩
      rw [(hview j).2.2]
      simp [speedContrib, hcur]
    | some cc =>
      simp only [hcur] at h
      cases hadd : addSpeedAt st cc 1 with
      | error e => rw [hadd] at h; exact absurd h (by simp)
      | ok stA =>
        simp only [hadd] at h
        have hA := addSpeedAt_char st cc 1 stA hadd
        have hvoteA : stA.vote = st.vote := hA.2.2.2.2.1
        cases hps : processSubsets stA cc (getAllSubsetsList stA.vote.choices (cc.card + 1)) with
        | error e => rw [hps] at h; exact absurd h (by simp)
        | ok stB =>
          simp only [hps] at h
          have hP := processSubsets_char cc (getAllSubsetsList stA.vote.choices (cc.card + 1))
            (nodup_sortedListOf _ _) stA stB hps
          obtain ⟨hviewB, hagB, hvoteB, hsetB⟩ := ih stB st2 h
          have hcomp : ∀ j,
              (towerView stB j).height = (towerView st j).height ∧
              (towerView stB j).frozen = (towerView st j).frozen ∧
              (towerView stB j).speed = (towerView st j).speed +
                ((if cc = j then (1:ℚ) else 0) +
                 (if (j ∈ getAllSubsetsList st.vote.choices (cc.card + 1) ∧ cc ⊆ j ∧
                      (towerView st j).frozen = false) then (1:ℚ) else 0)) := by
            intro j
            have hAj := hA.1 j
            have hPj := hP.1 j
            rw [hvoteA] at hPj
            by_cases hjc : j = cc
            · subst hjc
              rw [if_pos rfl] at hAj
              have hfrA : (towerView stA j).frozen = (towerView st j).frozen := by
                rw [hAj]
              rw [hfrA] at hPj
              by_cases hsup : j ∈ getAllSubsetsList st.vote.choices (j.card + 1) ∧ j ⊆ j ∧
                  (towerView st j).frozen = false
              · rw [if_pos hsup] at hPj
                rw [hPj, hAj, if_pos rfl, if_pos hsup]
                refine ⟨rfl, rfl, by ring⟩
              · rw [if_neg hsup] at hPj
                rw [hPj, hAj, if_pos rfl, if_neg hsup]
                refine ⟨rfl, rfl, by ring⟩
            · rw [if_neg hjc] at hAj
              rw [hAj] at hPj
              have hccj : ¬ cc = j := fun hcj => hjc hcj.symm
              by_cases hsup : j ∈ getAllSubsetsList st.vote.choices (cc.card + 1) ∧ cc ⊆ j ∧
                  (towerView st j).frozen = false
              · rw [if_pos hsup] at hPj
                rw [hPj, if_neg hccj, if_pos hsup]
                refine ⟨rfl, rfl, by ring⟩
              · rw [if_neg hsup] at hPj
                rw [hPj, if_neg hccj, if_neg hsup]
                refine ⟨rfl, rfl, by ring⟩
          refine ⟨?_, hagB.trans (hP.2.1.trans hA.2.2.2.1),
            hvoteB.trans (hP.2.2.1.trans hvoteA),
            hsetB.trans (hP.2.2.2.trans hA.2.2.2.2.2)⟩
          intro j
          have hj := hviewB j
          have hcj := hcomp j
          refine ⟨hj.1.trans hcj.1, hj.2.1.trans hcj.2.1, ?_⟩
          rw [hj.2.2, hcj.2.2, hcj.2.1, hP.2.2.1.trans hvoteA]
          simp only [List.map_cons, List.sum_cons, speedContrib, hcur]
          ring

/-- With nonnegative observed speeds, a successful agent loop implies no
processed non-finished agent found its current tower frozen (the exact
addSpeed(1) would have raised). -/
theorem processAgentsSpeeds_active_not_frozen :
    ∀ (ds : List SSRAgentData) (st st2 : SSRState),
      (∀ j, 0 ≤ (towerView st j).speed) →
      processAgentsSpeeds st ds = .ok st2 →
      ∀ d ∈ ds, ∀ cc, d.current = some cc → (towerView st cc).frozen = false := by
  intro ds
  induction ds with
  | nil =>
    intro st st2 _ _ d hd
    simp at hd
  | cons d0 ds ih =>
    intro st st2 hnn h d hd cc hcc
    simp only [processAgentsSpeeds] at h
    cases hcur : d0.current with
    | none =>
      rw [hcur] at h
      rcases List.mem_cons.mp hd with hd0 | hds
      · subst hd0
        rw [hcur] at hcc
        exact absurd hcc (by simp)
      · exact ih st st2 hnn h d hds cc hcc
    | some cc0 =>
      simp only [hcur] at h
      cases hadd : addSpeedAt st cc0 1 with
      | error e => rw [hadd] at h; exact absurd h (by simp)
      | ok stA =>
        simp only [hadd] at h
        have hA := addSpeedAt_char st cc0 1 stA hadd
        have hfr0 : (towerView st cc0).frozen = false := by
          rcases hA.2.1 with h0 | hfr
          · have := hnn cc0
            linarith
          · exact hfr
        rcases List.mem_cons.mp hd with hd0 | hds
        · subst hd0
          rw [hcur] at hcc
          simp only [Option.some.injEq] at hcc
          subst hcc
          exact hfr0
        · cases hps : processSubsets stA cc0
              (getAllSubsetsList stA.vote.choices (cc0.card + 1)) with
          | error e => rw [hps] at h; exact absurd h (by simp)
          | ok stB =>
            simp only [hps] at h
            have hP := processSubsets_char cc0 (getAllSubsetsList stA.vote.choices (cc0.card + 1))
              (nodup_sortedListOf _ _) stA stB hps
            have hcompA : ∀ j, (towerView stA j).frozen = (towerView st j).frozen ∧
                (towerView stA j).speed = (towerView st j).speed +
                  (if j = cc0 then (1:ℚ) else 0) := by
              intro j
              rw [hA.1 j]
              by_cases hj : j = cc0
              · subst hj; rw [if_pos rfl, if_pos rfl]; exact ⟨rfl, rfl⟩
              · rw [if_neg hj, if_neg hj]; simp
            have hcompB : ∀ j, (towerView stB j).frozen = (towerView st j).frozen ∧
                0 ≤ (towerView stB j).speed := by
              intro j
              rw [hP.1 j]
              have hAj := hcompA j
              by_cases hc : j ∈ getAllSubsetsList stA.vote.choices (cc0.card + 1) ∧ cc0 ⊆ j ∧
                  (towerView stA j).frozen = false
              · rw [if_pos hc]
                refine ⟨hAj.1, ?_⟩
                have := hnn j
                rw [hAj.2]
                by_cases hj : j = cc0
                · rw [if_pos hj]; simp only; linarith
                · rw [if_neg hj]; simp only; linarith
              · rw [if_neg hc]
                refine ⟨hAj.1, ?_⟩
                have := hnn j
                rw [hAj.2]
                by_cases hj : j = cc0
                · rw [if_pos hj]; linarith
                · rw [if_neg hj]; linarith
            have hres := ih stB st2 (fun j => (hcompB j).2) h d hds cc hcc
            rw [(hcompB cc).1] at hres
            exact hres

/-- Characterisation of a successful adjustTowerSpeeds: heights and
frozen flags are untouched, the agents are untouched, and every tower's
speed becomes exactly the total contribution of the non-finished
agents; moreover no non-finished agent's current tower is frozen. -/
theorem adjustTowerSpeeds_char (st st2 : SSRState)
    (h : adjustTowerSpeeds st = .ok st2) :
    (∀ j, (towerView st2 j).height = (towerView st j).height ∧
      (towerView st2 j).frozen = (towerView st j).frozen ∧
      (towerView st2 j).speed =
        (st.agents.map (fun d => speedContrib st.vote.choices (towerView st j).frozen j d)).sum) ∧
    (∀ d ∈ st.agents, ∀ cc, d.current = some cc → (towerView st cc).frozen = false) ∧
    st2.agents = st.agents ∧ st2.vote = st.vote ∧ st2.settings = st.settings := by
  unfold adjustTowerSpeeds at h
  obtain ⟨hview, hag, hvote, hset⟩ := processAgentsSpeeds_char st.agents (zeroSpeeds st) st2 h
  have hz : ∀ j, towerView (zeroSpeeds st) j = { towerView st j with speed := 0 } :=
    zeroSpeeds_view st
  have hnf := processAgentsSpeeds_active_not_frozen st.agents (zeroSpeeds st) st2
    (fun j => by rw [hz j]) h
  refine ⟨?_, ?_, hag, hvote, hset⟩
  · intro j
    have hj := hview j
    rw [hz j] at hj
    refine ⟨hj.1, hj.2.1, ?_⟩
    rw [hj.2.2]
    show (0:ℚ) + _ = _
    rw [zero_add]
    rfl
  · intro d hd cc hcc
    have := hnf d hd cc hcc
    rw [hz cc] at this
    exact this

/-- getTower on an already-present key is the identity. -/
theorem getTowerSSR_already (st : SSRState) (k : ChoiceClass) (hk : k ∈ st.towerKeys) :
    getTowerSSR st k = st := by
  unfold getTowerSSR
  rw [if_pos hk]

/-- The enumeration getAllSubsets(choices, |cc|+1) together with the
containment test is exactly the superContribP condition. -/
theorem superContrib_iff (choices : Finset Choice) (cc j : ChoiceClass) :
    (j ∈ getAllSubsetsList choices (cc.card + 1) ∧ cc ⊆ j) ↔ superContribP choices cc j := by
  rw [getAllSubsetsList, mem_sortedListOf]
  unfold getAllSubsets superContribP
  by_cases h1 : cc.card + 1 = choices.card
  · rw [if_pos h1]
    simp only [Finset.mem_singleton]
    constructor
    · rintro ⟨hj, hsub⟩
      subst hj
      refine ⟨Finset.ssubset_iff_subset_ne.mpr ⟨hsub, ?_⟩, Finset.Subset.refl _, Or.inr h1⟩
      intro hcc
      rw [hcc] at h1
      omega
    · rintro ⟨hss, hsub, _⟩
      have hc1 : cc.card < j.card := Finset.card_lt_card hss
      have hc2 : j.card ≤ choices.card := Finset.card_le_card hsub
      have hje : j = choices := Finset.eq_of_subset_of_card_le hsub (by omega)
      exact ⟨hje, hss.subset⟩
  · by_cases h2 : choices.card < cc.card + 1
    · rw [if_neg h1, if_pos h2]
      constructor
      · rintro ⟨hj, _⟩
        exact absurd hj (Finset.not_mem_empty j)
      · rintro ⟨hss, hsub, hor⟩
        have hc1 : cc.card < j.card := Finset.card_lt_card hss
        have hc2 : j.card ≤ choices.card := Finset.card_le_card hsub
        omega
    · rw [if_neg h1, if_neg h2]
      simp only [Finset.mem_filter, Finset.mem_powerset]
      constructor
      · rintro ⟨⟨hsub, hcard1, hcard2⟩, hccj⟩
        refine ⟨Finset.ssubset_iff_subset_ne.mpr ⟨hccj, ?_⟩, hsub, Or.inl hcard2⟩
        intro he
        subst he
        omega
      · rintro ⟨hss, hsub, hor⟩
        have hlt := Finset.card_lt_card hss
        have hcard2 : j.card < choices.card := by
          rcases hor with h | h
          · exact h
          · exact absurd h h1
        exact ⟨⟨hsub, by omega, hcard2⟩, hss.subset⟩

/-- The total speed contribution of a list of agents to the tower keyed
j equals the count of exact pushers plus, when the tower is not frozen,
the count of superset pushers. -/
theorem speedContrib_sum (choices : Finset Choice) (j : ChoiceClass) (frozenJ : Bool) :
    ∀ (ds : List SSRAgentData),
      (ds.map (fun d => speedContrib choices frozenJ j d)).sum =
        (countCurrentEq ds j : ℚ) +
          (if frozenJ then 0 else (countCurrentSuper ds choices j : ℚ)) := by
  intro ds
  induction ds with
  | nil =>
    cases frozenJ <;> simp [countCurrentEq, countCurrentSuper]
  | cons d ds ih =>
    cases hcur : d.current with
    | none =>
      have h1 : speedContrib choices frozenJ j d = 0 := by simp [speedContrib, hcur]
      have h2 : countCurrentEq (d :: ds) j = countCurrentEq ds j := by
        simp [countCurrentEq, List.countP_cons, hcur]
      have h3 : countCurrentSuper (d :: ds) choices j = countCurrentSuper ds choices j := by
        simp [countCurrentSuper, List.countP_cons, hcur]
      simp only [List.map_cons, List.sum_cons, h1, h2, h3, ih, zero_add]
    | some cc =>
      have h1 : speedContrib choices frozenJ j d =
          (if cc = j then (1:ℚ) else 0) +
          (if (j ∈ getAllSubsetsList choices (cc.card + 1) ∧ cc ⊆ j ∧ frozenJ = false)
            then (1:ℚ) else 0) := by
        simp [speedContrib, hcur]
      have h2 : (countCurrentEq (d :: ds) j : ℚ) =
          (countCurrentEq ds j : ℚ) + (if cc = j then 1 else 0) := by
        simp only [countCurrentEq, List.countP_cons, hcur]
        by_cases hc : cc = j
        · simp [hc]
        · simp [hc]
      have h3 : (countCurrentSuper (d :: ds) choices j : ℚ) =
          (countCurrentSuper ds choices j : ℚ) +
            (if superContribP choices cc j then 1 else 0) := by
        simp only [countCurrentSuper, List.countP_cons, hcur]
        by_cases hc : superContribP choices cc j
        · simp [hc]
        · simp [hc]
      have h4 : (if (j ∈ getAllSubsetsList choices (cc.card + 1) ∧ cc ⊆ j ∧ frozenJ = false)
            then (1:ℚ) else 0) =
          (if frozenJ then 0 else (if superContribP choices cc j then (1:ℚ) else 0)) := by
        cases frozenJ with
        | true =>
          rw [if_neg (fun hc => by simpa using hc.2.2), if_pos rfl]
        | false =>
          simp only [Bool.false_eq_true, if_false]
          by_cases hc : superContribP choices cc j
          · obtain ⟨hm, hs⟩ := (superContrib_iff choices cc j).mpr hc
            rw [if_pos ⟨hm, hs, by trivial⟩, if_pos hc]
          · rw [if_neg (fun hl => hc ((superContrib_iff choices cc j).mp ⟨hl.1, hl.2.1⟩)),
              if_neg hc]
      simp only [List.map_cons, List.sum_cons, h1, h2, h3, h4, ih]
      cases frozenJ with
      | true =>
        simp only [if_pos rfl, eq_self_iff_true, if_true]
        ring
      | false =>
        simp only [Bool.false_eq_true, if_false]
        ring

/-- addSpeed(1) on a not-frozen tower with nonnegative speed succeeds. -/
theorem addSpeedAt_one_total (st : SSRState) (k : ChoiceClass)
    (hfr : (towerView st k).frozen = false) (hnn : 0 ≤ (towerView st k).speed) :
    ∃ st2, addSpeedAt st k 1 = .ok st2 := by
  have ht : (getTowerSSR st k).towerOf k = towerView st k := getTowerSSR_self st k
  have haddok : ((getTowerSSR st k).towerOf k).addSpeed 1 =
      .ok { (getTowerSSR st k).towerOf k with
        speed := ((getTowerSSR st k).towerOf k).speed + 1 } := by
    unfold SSRTower.addSpeed SSRTower.setSpeed
    rw [if_neg (fun hc => by rw [ht, hfr] at hc; exact absurd hc.2 (by simp)),
      if_neg (by rw [ht]; intro hlt; linarith)]
  cases hres : addSpeedAt st k 1 with
  | ok st2 => exact ⟨st2, rfl⟩
  | error e =>
    exfalso
    simp only [addSpeedAt, haddok] at hres
    exact absurd hres (by simp)

/-- The superset loop never raises when observed speeds are
nonnegative. -/
theorem processSubsets_total (cc : ChoiceClass) :
    ∀ (L : List ChoiceClass) (st : SSRState),
      (∀ j, 0 ≤ (towerView st j).speed) →
      ∃ st2, processSubsets st cc L = .ok st2 := by
  intro L
  induction L with
  | nil => intro st _; exact ⟨st, rfl⟩
  | cons k ks ih =>
    intro st hnn
    simp only [processSubsets]
    by_cases hsub : cc ⊆ k
    · rw [if_pos hsub]
      by_cases hfr : ((getTowerSSR st k).towerOf k).frozen = true
      · rw [if_pos hfr]
        exact ih (getTowerSSR st k) (fun j => by rw [getTowerSSR_view]; exact hnn j)
      · rw [if_neg hfr]
        rw [getTowerSSR_self] at hfr
        obtain ⟨stA, hadd⟩ := addSpeedAt_one_total (getTowerSSR st k) k
          (by rw [getTowerSSR_view]; exact Bool.eq_false_iff.mpr hfr)
          (by rw [getTowerSSR_view]; exact hnn k)
        rw [hadd]
        have hA := addSpeedAt_char (getTowerSSR st k) k 1 stA hadd
        refine ih stA (fun j => ?_)
        rw [hA.1 j]
        by_cases hj : j = k
        · subst hj
          rw [if_pos rfl]
          have := hnn j
          rw [getTowerSSR_view] at *
          simp only
          linarith
        · rw [if_neg hj, getTowerSSR_view]
          exact hnn j
    · rw [if_neg hsub]
      exact ih st hnn

/-- The agent loop never raises when observed speeds are nonnegative and
no non-finished agent's current tower is frozen. -/
theorem processAgentsSpeeds_total :
    ∀ (ds : List SSRAgentData) (st : SSRState),
      (∀ j, 0 ≤ (towerView st j).speed) →
      (∀ d ∈ ds, ∀ cc, d.current = some cc → (towerView st cc).frozen = false) →
      ∃ st2, processAgentsSpeeds st ds = .ok st2 := by
  intro ds
  induction ds with
  | nil => intro st _ _; exact ⟨st, rfl⟩
  | cons d ds ih =>
    intro st hnn hfrz
    cases hcur : d.current with
    | none =>
      simp only [processAgentsSpeeds, hcur]
      exact ih st hnn (fun d2 hd2 cc hcc => hfrz d2 (List.mem_cons_of_mem d hd2) cc hcc)
    | some cc =>
      simp only [processAgentsSpeeds, hcur]
      obtain ⟨stA, hadd⟩ := addSpeedAt_one_total st cc
        (hfrz d (List.mem_cons_self d ds) cc hcur) (hnn cc)
      simp only [hadd]
      have hA := addSpeedAt_char st cc 1 stA hadd
      have hnnA : ∀ j, 0 ≤ (towerView stA j).speed := by
        intro j
        rw [hA.1 j]
        by_cases hj : j = cc
        · subst hj
          rw [if_pos rfl]
          have := hnn j
          simp only
          linarith
        · rw [if_neg hj]
          exact hnn j
      obtain ⟨stB, hps⟩ := processSubsets_total cc
        (getAllSubsetsList stA.vote.choices (cc.card + 1)) stA hnnA
      simp only [hps]
      have hP := processSubsets_char cc (getAllSubsetsList stA.vote.choices (cc.card + 1))
        (nodup_sortedListOf _ _) stA stB hps
      have hnnB : ∀ j, 0 ≤ (towerView stB j).speed := by
        intro j
        rw [hP.1 j]
        by_cases hc : j ∈ getAllSubsetsList stA.vote.choices (cc.card + 1) ∧ cc ⊆ j ∧
            (towerView stA j).frozen = false
        · rw [if_pos hc]
          have := hnnA j
          simp only
          linarith
        · rw [if_neg hc]
          exact hnnA j
      have hfrB : ∀ j, (towerView stB j).frozen = (towerView st j).frozen := by
        intro j
        have hfrA : (towerView stA j).frozen = (towerView st j).frozen := by
          rw [hA.1 j]
          by_cases hj : j = cc
          · subst hj; rw [if_pos rfl]
          · rw [if_neg hj]
        rw [← hfrA]
        rw [hP.1 j]
        by_cases hc : j ∈ getAllSubsetsList stA.vote.choices (cc.card + 1) ∧ cc ⊆ j ∧
            (towerView stA j).frozen = false
        · rw [if_pos hc]
        · rw [if_neg hc]
      refine ih stB hnnB (fun d2 hd2 cc2 hcc2 => ?_)
      rw [hfrB cc2]
      exact hfrz d2 (List.mem_cons_of_mem d hd2) cc2 hcc2

/-- adjustTowerSpeeds never raises when no non-finished agent's current
tower is frozen. -/
theorem adjustTowerSpeeds_total (st : SSRState)
    (hfrz : ∀ d ∈ st.agents, ∀ cc, d.current = some cc → (towerView st cc).frozen = false) :
    ∃ st2, adjustTowerSpeeds st = .ok st2 := by
  unfold adjustTowerSpeeds
  refine processAgentsSpeeds_total st.agents (zeroSpeeds st) (fun j => by rw [zeroSpeeds_view])
    (fun d hd cc hcc => ?_)
  rw [zeroSpeeds_view]
  exact hfrz d hd cc hcc

/-- C2 (amended): after a successful adjustTowerSpeeds, a frozen tower's
speed is 0, and any other tower's speed is the number of non-finished
agents whose current tie-group is exactly the tower's key plus the
number of non-finished agents whose current tie-group is a proper subset
of the key, where the key must be drawn from the choice set and be
either smaller than the full choice set or the full set itself when the
tie-group has exactly one element fewer (supersets more than one element
larger do receive speed; the full choice set receives none unless the
tie-group has one element fewer than it). -/
theorem adjustTowerSpeeds_speed_formula :
    ∀ (st st2 : SSRState), adjustTowerSpeeds st = .ok st2 →
      st2.agents = st.agents ∧
      ∀ j, (towerView st2 j).frozen = (towerView st j).frozen ∧
        (towerView st2 j).speed =
          (if (towerView st j).frozen then 0
           else (countCurrentEq st.agents j : ℚ) +
             (countCurrentSuper st.agents st.vote.choices j : ℚ)) := by
  intro st st2 h
  obtain ⟨hview, hnf, hag, hvote, hset⟩ := adjustTowerSpeeds_char st st2 h
  refine ⟨hag, fun j => ⟨(hview j).2.1, ?_⟩⟩
  rw [(hview j).2.2, speedContrib_sum]
  by_cases hfr : (towerView st j).frozen = true
  · rw [hfr]
    have hcnt : countCurrentEq st.agents j = 0 := by
      rw [countCurrentEq, List.countP_eq_zero]
      intro d hd
      simp only [decide_eq_true_eq]
      intro hdc
      have hne := hnf d hd j hdc
      rw [hne] at hfr
      exact absurd hfr (by simp)
    rw [hcnt]
    norm_num
  · have hfr2 : (towerView st j).frozen = false := Bool.eq_false_iff.mpr hfr
    rw [hfr2]
    simp only [Bool.false_eq_true, if_false]

/-- C2 counterexample: on the concrete four-choice state, the tower
keyed by a subset two elements larger than the agent's tie-group
receives speed 1 from that agent, while the claim's formula (exact
class, plus subsets with exactly one element fewer) assigns it 0. -/
theorem adjustTowerSpeeds_claim_refuted :
    ¬ (∀ st2, adjustTowerSpeeds c2State = .ok st2 →
        ∀ j, (towerView st2 j).speed = claimedAdjustSpeed c2State j) := by
  intro hclaim
  obtain ⟨st2, hok⟩ := adjustTowerSpeeds_total c2State
    (fun d hd cc hcc => by simp [towerView, c2State, defaultSSRTower])
  have hval := hclaim st2 hok c2Key
  obtain ⟨hview, hnf, hag, hvote, hset⟩ := adjustTowerSpeeds_char c2State st2 hok
  rw [(hview c2Key).2.2, speedContrib_sum] at hval
  have hfr : (towerView c2State c2Key).frozen = false := by decide
  have hcntEq : countCurrentEq c2State.agents c2Key = 0 := by decide
  have hcntSup : countCurrentSuper c2State.agents c2State.vote.choices c2Key = 1 := by decide
  have hclaimval : claimedAdjustSpeed c2State c2Key = 0 := by
    unfold claimedAdjustSpeed
    rw [if_neg (by rw [hfr]; simp)]
    have hcp : c2State.agents.countP (fun d =>
        match d.current with
        | some cc => decide (cc ⊆ c2Key ∧ cc.card + 1 = c2Key.card)
        | none => false) = 0 := by decide
    rw [hcp, hcntEq]
    norm_num
  rw [hcntEq, hcntSup, hfr, hclaimval] at hval
  norm_num at hval

/-- C2 witness: on the same concrete state the amended formula evaluates
to speed 1 for that tower. -/
theorem adjustTowerSpeeds_speed_formula_witness :
    (towerView c2Adjusted c2Key).speed = 1 := by
  obtain ⟨st2, hok⟩ := adjustTowerSpeeds_total c2State
    (fun d hd cc hcc => by simp [towerView, c2State, defaultSSRTower])
  have hadj : adjustTowerSpeeds c2State = .ok c2Adjusted := by
    unfold c2Adjusted
    rw [hok]
  have h := adjustTowerSpeeds_speed_formula c2State c2Adjusted hadj
  rw [(h.2 c2Key).2, if_neg (by rw [show (towerView c2State c2Key).frozen = false by decide]; simp)]
  rw [show countCurrentEq c2State.agents c2Key = 0 by decide,
    show countCurrentSuper c2State.agents c2State.vote.choices c2Key = 1 by decide]
  norm_num

/-- Clamping into the unit interval never drops below a value already in
the unit interval and below the clamped one. -/
theorem boundValue_unit_ge (h v : ℚ) (h0 : 0 ≤ h) (h1 : h ≤ 1) (hle : h ≤ v) :
    h ≤ boundValue v 0 1 := by
  unfold boundValue
  split
  · linarith
  · split
    · linarith
    · linarith

/-- The tower loop of the tower-centric advance: with nonnegative dt and
the per-tower invariant, no observed height decreases, the invariant is
preserved and nothing else changes. -/
theorem climbTowersSSR_mono (dt : ℚ) (fr : List ChoiceClass) (hdt : 0 ≤ dt) :
    ∀ (ks : List ChoiceClass) (st st2 : SSRState),
      (∀ j, towerViewInv st j) →
      (∀ k ∈ ks, k ∈ st.towerKeys) →
      climbTowersSSR st dt fr ks = .ok st2 →
      (∀ j, (towerView st j).height ≤ (towerView st2 j).height) ∧
      (∀ j, towerViewInv st2 j) ∧
      st2.agents = st.agents ∧ st2.vote = st.vote ∧ st2.settings = st.settings := by
  intro ks
  induction ks with
  | nil =>
    intro st st2 hinv hks h
    simp only [climbTowersSSR, Except.ok.injEq] at h
    subst h
    exact ⟨fun j => le_refl _, hinv, rfl, rfl, rfl⟩
  | cons k ks ih =>
    intro st st2 hinv hks h
    have hkmem : k ∈ st.towerKeys := hks k (List.mem_cons_self k ks)
    have hofk : st.towerOf k = towerView st k := by
      unfold towerView
      rw [if_pos hkmem]
    simp only [climbTowersSSR] at h
    by_cases hfr : (st.towerOf k).frozen = true
    · rw [if_pos hfr] at h
      exact ih st st2 hinv (fun k2 hk2 => hks k2 (List.mem_cons_of_mem _ hk2)) h
    · rw [if_neg hfr] at h
      by_cases hchk : st.settings.isInInterval
          ((st.towerOf k).height + dt * (st.towerOf k).speed) 0 1 = true
      · rw [if_neg (by simp [hchk])] at h
        cases hsh : (st.towerOf k).setHeight
            (boundValue ((st.towerOf k).height + dt * (st.towerOf k).speed) 0 1) false with
        | error e => simp only [hsh] at h; exact absurd h (by simp)
        | ok t1 =>
          simp only [hsh] at h
          have hch := SSRTower.setHeight_char _ _ _ _ hsh
          have hinvk := hinv k
          unfold towerViewInv at hinvk
          rw [← hofk] at hinvk
          have hhge : (st.towerOf k).height ≤ t1.height := by
            rw [hch.1]
            refine boundValue_unit_ge _ _ hinvk.1 hinvk.2.1 ?_
            have hsp : 0 ≤ dt * (st.towerOf k).speed :=
              mul_nonneg hdt hinvk.2.2
            linarith
          set t2 := if k ∈ fr then t1.setFrozen else t1 with ht2
          have ht2h : t2.height = t1.height := by
            rw [ht2]
            split
            · rfl
            · rfl
          have ht2s : 0 ≤ t2.speed := by
            rw [ht2]
            split
            · simp [SSRTower.setFrozen]
            · rw [hch.2.2.2.2]
              split
              · exact le_refl 0
              · exact hinvk.2.2
          have hinv1 : ∀ j, towerViewInv
              { st with towerOf := Function.update st.towerOf k t2 } j := by
            intro j
            unfold towerViewInv towerView
            by_cases hjk : j = k
            · subst hjk
              simp only [hkmem, if_pos, Function.update_same]
              have hb := boundValue_unit_mem ((st.towerOf j).height + dt * (st.towerOf j).speed)
              refine ⟨?_, ?_, ht2s⟩
              · rw [ht2h, hch.1]; exact hb.1
              · rw [ht2h, hch.1]; exact hb.2
            · simp only [Function.update_noteq hjk]
              exact hinv j
          have hmono1 : ∀ j, (towerView st j).height ≤
              (towerView { st with towerOf := Function.update st.towerOf k t2 } j).height := by
            intro j
            unfold towerView
            by_cases hjk : j = k
            · subst hjk
              simp only [hkmem, if_pos, Function.update_same]
              rw [ht2h]
              exact hhge
            · simp only [Function.update_noteq hjk]
              exact le_refl _
          have hrec := ih { st with towerOf := Function.update st.towerOf k t2 } st2 hinv1
            (fun k2 hk2 => hks k2 (List.mem_cons_of_mem _ hk2)) h
          exact ⟨fun j => le_trans (hmono1 j) (hrec.1 j), hrec.2.1, hrec.2.2.1,
            hrec.2.2.2.1, hrec.2.2.2.2⟩
      · rw [if_pos (by simp [Bool.eq_false_iff.mpr hchk])] at h
        exact absurd h (by simp)

/-- The cursor-skipping while loop touches only tower materialisation:
every observed tower, the agents field, vote and settings survive. -/
theorem skipFrozenA_pres :
    ∀ (rest : List ChoiceClass) (st : SSRState) (cur : Option ChoiceClass),
      (∀ j, towerView (skipFrozenA st cur rest).1 j = towerView st j) ∧
      (skipFrozenA st cur rest).1.agents = st.agents ∧
      (skipFrozenA st cur rest).1.vote = st.vote ∧
      (skipFrozenA st cur rest).1.settings = st.settings := by
  intro rest
  induction rest with
  | nil =>
    intro st cur
    cases cur with
    | none => exact ⟨fun j => rfl, rfl, rfl, rfl⟩
    | some cc =>
      simp only [skipFrozenA]
      split
      · exact ⟨fun j => getTowerSSR_view st cc j, (getTowerSSR_rest st cc).1,
          (getTowerSSR_rest st cc).2.1, (getTowerSSR_rest st cc).2.2⟩
      · exact ⟨fun j => getTowerSSR_view st cc j, (getTowerSSR_rest st cc).1,
          (getTowerSSR_rest st cc).2.1, (getTowerSSR_rest st cc).2.2⟩
  | cons r rs ih =>
    intro st cur
    cases cur with
    | none => exact ⟨fun j => rfl, rfl, rfl, rfl⟩
    | some cc =>
      simp only [skipFrozenA]
      split
      · have hrec := ih (getTowerSSR st cc) (some r)
        exact ⟨fun j => (hrec.1 j).trans (getTowerSSR_view st cc j),
          hrec.2.1.trans (getTowerSSR_rest st cc).1,
          hrec.2.2.1.trans (getTowerSSR_rest st cc).2.1,
          hrec.2.2.2.trans (getTowerSSR_rest st cc).2.2⟩
      · exact ⟨fun j => getTowerSSR_view st cc j, (getTowerSSR_rest st cc).1,
          (getTowerSSR_rest st cc).2.1, (getTowerSSR_rest st cc).2.2⟩

/-- The agent loop of the tower-centric advance preserves every observed
tower, the agents field of the threaded state, vote and settings. -/
theorem skipAgents_pres :
    ∀ (ds : List SSRAgentData) (st : SSRState),
      (∀ j, towerView (skipAgents st ds).1 j = towerView st j) ∧
      (skipAgents st ds).1.agents = st.agents ∧
      (skipAgents st ds).1.vote = st.vote ∧
      (skipAgents st ds).1.settings = st.settings := by
  intro ds
  induction ds with
  | nil => intro st; exact ⟨fun j => rfl, rfl, rfl, rfl⟩
  | cons d ds ih =>
    intro st
    cases hcur : d.current with
    | none =>
      simp only [skipAgents, hcur]
      exact ih st
    | some cc =>
      simp only [skipAgents, hcur]
      have hskip := skipFrozenA_pres d.rest st (some cc)
      have hrec := ih (skipFrozenA st (some cc) d.rest).1
      exact ⟨fun j => (hrec.1 j).trans (hskip.1 j),
        hrec.2.1.trans hskip.2.1,
        hrec.2.2.1.trans hskip.2.2.1,
        hrec.2.2.2.trans hskip.2.2.2⟩

/-- C6: no successful call to advance, agent-centric or tower-centric,
ever lowers any observed tower height (the tower-centric direction needs
nonnegative climbing time and the per-tower invariant, both maintained
by the solver loops). -/
theorem advance_tower_monotonicity :
    (∀ (st : SRState) (dt : ℚ) (bouncing : List Agent) (st2 : SRState),
      advanceSR st dt bouncing = .ok st2 →
      ∀ j, srHeightView st j ≤ srHeightView st2 j) ∧
    (∀ (st : SSRState) (dt : ℚ) (freezing : List ChoiceClass) (st2 : SSRState),
      0 ≤ dt → (∀ j, towerViewInv st j) →
      advanceSSR st dt freezing = .ok st2 →
      ∀ j, (towerView st j).height ≤ (towerView st2 j).height) := by
  constructor
  · intro st dt bouncing st2 h j
    unfold advanceSR at h
    cases hgo : advanceSRGo st dt bouncing st.agents with
    | error e => rw [hgo] at h; exact absurd h (by simp)
    | ok pr =>
      obtain ⟨st1, ags⟩ := pr
      simp only [hgo, Except.ok.injEq] at h
      subst h
      exact (advanceSRGo_mono dt bouncing st.agents st st1 ags hgo).1 j
  · intro st dt freezing st2 hdt hinv h j
    unfold advanceSSR at h
    cases hcl : climbTowersSSR st dt freezing st.towerKeys with
    | error e => rw [hcl] at h; exact absurd h (by simp)
    | ok stC =>
      simp only [hcl] at h
      have hclm := climbTowersSSR_mono dt freezing hdt st.towerKeys st stC hinv
        (fun k hk => hk) hcl
      have hskip := skipAgents_pres stC.agents stC
      obtain ⟨hviewA, hnfA, hagA, hvoteA, hsetA⟩ := adjustTowerSpeeds_char _ _ h
      calc (towerView st j).height ≤ (towerView stC j).height := hclm.1 j
        _ = (towerView (skipAgents stC stC.agents).1 j).height := by rw [hskip.1 j]
        _ = (towerView st2 j).height := (hviewA j).1.symm

/-- C6 witness: both monotonicity statements applied to concrete
advances. -/
theorem advance_tower_monotonicity_witness :
    srHeightView c6SRState {chA} ≤ srHeightView c6SRState {chA} ∧
    (towerView c6SSRState {chA}).height ≤ (towerView c6SSRState {chA}).height := by
  constructor
  · exact advance_tower_monotonicity.1 c6SRState (1/4) [] c6SRState rfl {chA}
  · refine advance_tower_monotonicity.2 c6SSRState (1/4) [] c6SSRState (by norm_num) ?_ rfl {chA}
    intro j
    unfold towerViewInv towerView
    simp [c6SSRState, defaultSSRTower]

/-- The initialisation never moves an agent's cursor. -/
theorem spsrAgentUpdate_current (frac : ChoiceClass → ℚ) (L : List ChoiceClass)
    (d : SRAgentData) : (spsrAgentUpdate frac L d).current = d.current := by
  obtain ⟨a, c, r, hh, sp⟩ := d
  cases c with
  | none => rfl
  | some k0 =>
    simp only [spsrAgentUpdate]
    split
    · rfl
    · rfl

/-- The subset count depends only on the agents' cursors. -/
theorem countSubsetAgents_congr (l1 l2 : List SRAgentData)
    (h : l1.map (fun d => d.current) = l2.map (fun d => d.current)) (k : ChoiceClass) :
    countSubsetAgents l1 k = countSubsetAgents l2 k := by
  have h1 : countSubsetAgents l1 k = (l1.map (fun d => d.current)).countP
      (fun oc => match oc with
        | some cc => decide (cc ⊆ k)
        | none => false) := by
    rw [List.countP_map]
    rfl
  have h2 : countSubsetAgents l2 k = (l2.map (fun d => d.current)).countP
      (fun oc => match oc with
        | some cc => decide (cc ⊆ k)
        | none => false) := by
    rw [List.countP_map]
    rfl
  rw [h1, h2, h]

/-- Characterisation of a successful setClassHeight. -/
theorem setClassHeight_char (st : SRState) (k : ChoiceClass) (h : ℚ) (st2 : SRState)
    (hok : setClassHeight st k h = .ok st2) :
    (∀ j, srHeightView st2 j = if j = k then h else srHeightView st j) ∧
    st2.agents = st.agents ∧ st2.vote = st.vote ∧ st2.settings = st.settings := by
  simp only [setClassHeight] at hok
  split at hok
  · exact absurd hok (by simp)
  · simp only [Except.ok.injEq] at hok
    subst hok
    refine ⟨?_, (getTowerSR_rest st k).1, (getTowerSR_rest st k).2.1,
      (getTowerSR_rest st k).2.2⟩
    intro j
    by_cases hjk : j = k
    · subst hjk
      have hmem := getTowerSR_mem st j
      rw [if_pos rfl]
      show (if j ∈ (getTowerSR st j).towerKeys then
          Function.update (getTowerSR st j).towerHeight j h j else 0) = h
      rw [if_pos hmem, Function.update_same]
    · rw [if_neg hjk, ← getTowerSR_view st k j]
      show (if j ∈ (getTowerSR st k).towerKeys then
          Function.update (getTowerSR st k).towerHeight k h j else 0) = _
      rw [Function.update_noteq hjk]
      rfl

/-- Characterisation of a successful setAgentHeight on one record. -/
theorem setAgentHeightD_char (s : SolverSettings) (d : SRAgentData) (h : ℚ)
    (d2 : SRAgentData) (hok : setAgentHeightD s d h = .ok d2) :
    d2 = { d with height := boundValue h 0 1 } := by
  simp only [setAgentHeightD] at hok
  split at hok
  · exact absurd hok (by simp)
  · simp only [SRAgentData.setHeightD] at hok
    split at hok
    · exact absurd hok (by simp)
    · simp only [Except.ok.injEq] at hok
      exact hok.symm

/-- Characterisation of a successful agent-height loop. -/
theorem setAgentHeightsGo_char (s : SolverSettings) (k : ChoiceClass) (h : ℚ) :
    ∀ (l ags : List SRAgentData), setAgentHeightsGo s k h l = .ok ags →
      ags = l.map (fun d =>
        if d.current = some k then { d with height := boundValue h 0 1 } else d) := by
  intro l
  induction l with
  | nil =>
    intro ags hok
    simp only [setAgentHeightsGo, Except.ok.injEq] at hok
    subst hok
    rfl
  | cons d ds ih =>
    intro ags hok
    simp only [setAgentHeightsGo] at hok
    by_cases hc : d.current = some k
    · rw [if_pos hc] at hok
      cases hd : setAgentHeightD s d h with
      | error e =>
        rw [hd] at hok
        exact absurd hok (by simp)
      | ok d2 =>
        rw [hd] at hok
        cases hds : setAgentHeightsGo s k h ds with
        | error e =>
          rw [hds] at hok
          exact absurd hok (by simp)
        | ok ds2 =>
          simp only [hds, Except.ok.injEq] at hok
          subst hok
          rw [List.map_cons, if_pos hc, ← setAgentHeightD_char s d h d2 hd, ih ds2 hds]
    · rw [if_neg hc] at hok
      cases hds : setAgentHeightsGo s k h ds with
      | error e =>
        rw [hds] at hok
        exact absurd hok (by simp)
      | ok ds2 =>
        simp only [hds, Except.ok.injEq] at hok
        subst hok
        rw [List.map_cons, if_neg hc, ih ds2 hds]

/-- Characterisation of one SPSR initialisation step. -/
theorem spsrStep_char (st : SRState) (k : ChoiceClass) (st2 : SRState)
    (hok : spsrStep st k = .ok st2) :
    (∀ j, srHeightView st2 j = if j = k then spsrFrac st k else srHeightView st j) ∧
    st2.agents = st.agents.map (fun d =>
      if d.current = some k then
        { d with height := boundValue (spsrFrac st k) 0 1 } else d) ∧
    st2.vote = st.vote ∧ st2.settings = st.settings := by
  simp only [spsrStep] at hok
  cases hsc : setClassHeight st k
      ((countSubsetAgents st.agents k : ℚ) / (st.vote.agents.length : ℚ)) with
  | error e =>
    rw [hsc] at hok
    exact absurd hok (by simp)
  | ok st1 =>
    rw [hsc] at hok
    have hC := setClassHeight_char st k _ st1 hsc
    simp only [setAgentHeightsFor] at hok
    cases hgo : setAgentHeightsGo st1.settings k
        ((countSubsetAgents st.agents k : ℚ) / (st.vote.agents.length : ℚ)) st1.agents with
    | error e =>
      rw [hgo] at hok
      exact absurd hok (by simp)
    | ok ags =>
      rw [hgo] at hok
      simp only [Except.ok.injEq] at hok
      subst hok
      have hG := setAgentHeightsGo_char st1.settings k _ st1.agents ags hgo
      refine ⟨?_, ?_, hC.2.2.1, hC.2.2.2⟩
      · intro j
        show srHeightView st1 j = _
        rw [(hC.1 j)]
        rfl
      · show ags = _
        rw [hG, hC.2.1]
        rfl

/-- One initialisation step leaves every agent's cursor unchanged. -/
theorem currents_map_step (l : List SRAgentData) (k : ChoiceClass) (h : ℚ) :
    (l.map (fun d =>
      if d.current = some k then { d with height := boundValue h 0 1 } else d)).map
        (fun d => d.current) = l.map (fun d => d.current) := by
  induction l with
  | nil => rfl
  | cons d ds ih =>
    simp only [List.map_cons, ih]
    congr 1
    by_cases hc : d.current = some k
    · rw [if_pos hc]
    · rw [if_neg hc]

/-- The SPSR fractions are stable across an initialisation step: they only
read the cursors and the vote. -/
theorem spsrFrac_congr (st st1 : SRState)
    (hag : st1.agents.map (fun d => d.current) = st.agents.map (fun d => d.current))
    (hv : st1.vote = st.vote) (j : ChoiceClass) : spsrFrac st1 j = spsrFrac st j := by
  unfold spsrFrac
  rw [countSubsetAgents_congr st1.agents st.agents hag j, hv]

/-- Composing one step's agent update with the remaining updates equals the
cumulative update, provided the processed subset is not revisited. -/
theorem spsrAgentUpdate_fuse (frac : ChoiceClass → ℚ) (k : ChoiceClass)
    (ks : List ChoiceClass) (hk : k ∉ ks) (d : SRAgentData) :
    spsrAgentUpdate frac ks
      (if d.current = some k then { d with height := boundValue (frac k) 0 1 } else d) =
    spsrAgentUpdate frac (k :: ks) d := by
  obtain ⟨a, c, r, hh, sp⟩ := d
  cases c with
  | none =>
    rw [if_neg (by simp)]
    simp only [spsrAgentUpdate]
  | some k0 =>
    by_cases hc : k0 = k
    · subst hc
      rw [if_pos rfl]
      simp only [spsrAgentUpdate]
      rw [if_neg hk, if_pos (List.mem_cons_self k0 ks)]
    · rw [if_neg (by simp [hc])]
      simp only [spsrAgentUpdate]
      by_cases hm : k0 ∈ ks
      · rw [if_pos hm, if_pos (List.mem_cons_of_mem k hm)]
      · rw [if_neg hm, if_neg (by simp [hc, hm])]

/-- Characterisation of a successful run of the SPSR initialisation loop
over a duplicate-free list of subsets: untouched keys keep their view, each
processed key's tower gets the fraction computed from the INITIAL state,
the agents receive the cumulative update, and vote and settings are kept. -/
theorem spsrInitGo_char :
    ∀ (L : List ChoiceClass), L.Nodup → ∀ (st st2 : SRState),
      spsrInitGo st L = .ok st2 →
      (∀ j, j ∉ L → srHeightView st2 j = srHeightView st j) ∧
      (∀ k ∈ L, srHeightView st2 k = spsrFrac st k) ∧
      st2.agents = st.agents.map (spsrAgentUpdate (spsrFrac st) L) ∧
      st2.vote = st.vote ∧ st2.settings = st.settings := by
  intro L
  induction L with
  | nil =>
    intro _ st st2 hok
    simp only [spsrInitGo, Except.ok.injEq] at hok
    subst hok
    refine ⟨fun j _ => rfl, fun k hk => absurd hk (by simp), ?_, rfl, rfl⟩
    have : ∀ d : SRAgentData, spsrAgentUpdate (spsrFrac st) [] d = d := by
      intro d
      obtain ⟨a, c, r, hh, sp⟩ := d
      cases c with
      | none => rfl
      | some k0 =>
        simp only [spsrAgentUpdate]
        rw [if_neg (by simp)]
    calc st.agents = st.agents.map id := (List.map_id st.agents).symm
      _ = st.agents.map (spsrAgentUpdate (spsrFrac st) []) := by
          apply List.map_congr_left
          intro d _
          exact (this d).symm
  | cons k ks ih =>
    intro hnd st st2 hok
    have hknotks : k ∉ ks := (List.nodup_cons.mp hnd).1
    have hndks : ks.Nodup := (List.nodup_cons.mp hnd).2
    simp only [spsrInitGo] at hok
    cases hstep : spsrStep st k with
    | error e =>
      rw [hstep] at hok
      exact absurd hok (by simp)
    | ok st1 =>
      rw [hstep] at hok
      have hS := spsrStep_char st k st1 hstep
      have hI := ih hndks st1 st2 hok
      have hcur : st1.agents.map (fun d => d.current) =
          st.agents.map (fun d => d.current) := by
        rw [hS.2.1]
        exact currents_map_step st.agents k (spsrFrac st k)
      have hfrac : ∀ j, spsrFrac st1 j = spsrFrac st j :=
        spsrFrac_congr st st1 hcur hS.2.2.1
      refine ⟨?_, ?_, ?_, hI.2.2.2.1.trans hS.2.2.1, hI.2.2.2.2.trans hS.2.2.2⟩
      · intro j hj
        have hjk : j ≠ k := fun h => hj (h ▸ List.mem_cons_self k ks)
        have hjks : j ∉ ks := fun h => hj (List.mem_cons_of_mem k h)
        rw [hI.1 j hjks, hS.1 j, if_neg hjk]
      · intro j hj
        rcases List.mem_cons.mp hj with hjk | hjks
        · subst hjk
          rw [hI.1 j hknotks, hS.1 j, if_pos rfl]
        · rw [hI.2.1 j hjks, hfrac j]
      · rw [hI.2.2.1, hS.2.1, List.map_map]
        apply List.map_congr_left
        intro d _
        show spsrAgentUpdate (spsrFrac st1) ks
          (if d.current = some k then
            { d with height := boundValue (spsrFrac st k) 0 1 } else d) = _
        have hupd : spsrAgentUpdate (spsrFrac st1) ks = spsrAgentUpdate (spsrFrac st) ks := by
          funext d2
          obtain ⟨a, c, r, hh, sp⟩ := d2
          cases c with
          | none => rfl
          | some k0 =>
            simp only [spsrAgentUpdate]
            rw [hfrac k0]
        rw [hupd]
        exact spsrAgentUpdate_fuse (spsrFrac st) k ks hknotks d

/-- Clamping into [0, 1] is the identity on [0, 1]. -/
theorem boundValue_unit_id (v : ℚ) (h0 : 0 ≤ v) (h1 : v ≤ 1) : boundValue v 0 1 = v := by
  unfold boundValue
  rw [if_neg (not_lt.mpr h0), if_neg (not_lt.mpr h1)]

/-- The SPSR fraction always lies in [0, 1] when the state carries one
record per agent of the vote. -/
theorem spsrFrac_unit (st : SRState) (hag : st.agents.length = st.vote.agents.length)
    (k : ChoiceClass) : 0 ≤ spsrFrac st k ∧ spsrFrac st k ≤ 1 := by
  have hcnt : countSubsetAgents st.agents k ≤ st.vote.agents.length := by
    rw [← hag]
    exact List.countP_le_length _
  unfold spsrFrac
  by_cases hn : st.vote.agents.length = 0
  · rw [hn]
    norm_num
  · have hpos : (0 : ℚ) < (st.vote.agents.length : ℚ) := by
      exact_mod_cast Nat.pos_of_ne_zero hn
    constructor
    · apply div_nonneg (by positivity) (le_of_lt hpos)
    · rw [div_le_one hpos]
      exact_mod_cast hcnt

/-- The agent-height loop succeeds on any height in [0, 1] and returns
exactly the per-record update. -/
theorem setAgentHeightsGo_total (s : SolverSettings) (k : ChoiceClass) (h : ℚ)
    (h0 : 0 ≤ h) (h1 : h ≤ 1) :
    ∀ l : List SRAgentData, setAgentHeightsGo s k h l = .ok (l.map (fun d =>
      if d.current = some k then { d with height := boundValue h 0 1 } else d)) := by
  have hd : ∀ d : SRAgentData, setAgentHeightD s d h =
      .ok { d with height := boundValue h 0 1 } := by
    intro d
    have hin : s.isInInterval h 0 1 = true := by
      unfold SolverSettings.isInInterval
      rw [if_neg (not_lt.mpr h0), if_neg (not_lt.mpr h1)]
    simp only [setAgentHeightD, hin, Bool.not_true, Bool.false_eq_true, if_false]
    simp only [SRAgentData.setHeightD, boundValue_unit_id h h0 h1,
      if_neg (by push_neg; exact ⟨h0, h1⟩ :
        ¬(h < 0 ∨ 1 < h))]
  intro l
  induction l with
  | nil => rfl
  | cons d ds ih =>
    simp only [setAgentHeightsGo, List.map_cons]
    by_cases hc : d.current = some k
    · rw [if_pos hc, if_pos hc, hd d, ih]
    · rw [if_neg hc, if_neg hc, ih]

/-- One SPSR initialisation step always succeeds: the fraction of a subset
of the agents lies in [0, 1], so neither the tower- nor the agent-height
update can fail. -/
theorem spsrStep_total (st : SRState) (k : ChoiceClass)
    (hag : st.agents.length = st.vote.agents.length) :
    ∃ st2, spsrStep st k = .ok st2 := by
  obtain ⟨h0, h1⟩ := spsrFrac_unit st hag k
  have hb : ¬((countSubsetAgents st.agents k : ℚ) / (st.vote.agents.length : ℚ) < 0 ∨
      1 < (countSubsetAgents st.agents k : ℚ) / (st.vote.agents.length : ℚ)) := by
    push_neg
    exact ⟨h0, h1⟩
  cases hres : spsrStep st k with
  | ok st2 => exact ⟨st2, rfl⟩
  | error e =>
    exfalso
    simp only [spsrStep, setClassHeight] at hres
    rw [if_neg hb] at hres
    simp only [setAgentHeightsFor] at hres
    rw [(getTowerSR_rest st k).2.2, (getTowerSR_rest st k).1,
      setAgentHeightsGo_total st.settings k
        ((countSubsetAgents st.agents k : ℚ) / (st.vote.agents.length : ℚ))
        h0 h1 st.agents] at hres
    simp at hres

/-- One SPSR initialisation step preserves the number of agent records and
the vote. -/
theorem spsrStep_pres (st : SRState) (k : ChoiceClass) (st2 : SRState)
    (hok : spsrStep st k = .ok st2)
    (hag : st.agents.length = st.vote.agents.length) :
    st2.agents.length = st2.vote.agents.length := by
  have hS := spsrStep_char st k st2 hok
  rw [hS.2.1, List.length_map, hS.2.2.1]
  exact hag

/-- The whole SPSR initialisation loop succeeds when the state carries one
record per agent of the vote. -/
theorem spsrInitGo_total :
    ∀ (L : List ChoiceClass) (st : SRState),
      st.agents.length = st.vote.agents.length →
      ∃ st2, spsrInitGo st L = .ok st2 := by
  intro L
  induction L with
  | nil =>
    intro st _
    exact ⟨st, rfl⟩
  | cons k ks ih =>
    intro st hag
    obtain ⟨st1, hstep⟩ := spsrStep_total st k hag
    obtain ⟨st2, hgo⟩ := ih st1 (spsrStep_pres st k st1 hstep hag)
    refine ⟨st2, ?_⟩
    simp only [spsrInitGo]
    rw [hstep]
    exact hgo

/-- The full outcome set is never enumerated by getAllSubsets with
startSize 1 when there are at least two outcomes. -/
theorem full_not_mem_getAllSubsets_one (choices : Finset Choice)
    (h2 : 2 ≤ choices.card) : choices ∉ getAllSubsets choices 1 := by
  unfold getAllSubsets
  have hne : ¬ (1 = choices.card) :=
    Ne.symm (Nat.ne_of_gt (lt_of_lt_of_le one_lt_two h2))
  have hnl : ¬ (choices.card < 1) :=
    not_lt.mpr (le_trans (by norm_num) h2)
  rw [if_neg hne, if_neg hnl]
  simp only [Finset.mem_filter, Finset.mem_powerset, not_and]
  intro _ _
  exact lt_irrefl choices.card

/-- C3 counterexample: the initialisation does NOT also set the full
outcome set's tower, because getAllSubsets(choices) with its default
startSize 1 stops one short of the full set.  In the C3 scenario the full
set's fraction is 1 (the only agent's tie-group is contained in it), yet
its tower keeps the untouched height 0. -/
theorem spsrInit_claim_refuted :
    ¬ (∀ st2, spsrInit c3State = .ok st2 →
        ∀ S : ChoiceClass, S ⊆ c3State.vote.choices → S.Nonempty →
          srHeightView st2 S = spsrFrac c3State S) := by
  intro H
  obtain ⟨st2, hok⟩ :=
    spsrInitGo_total (getAllSubsetsList c3State.vote.choices 1) c3State rfl
  have hclaim := H st2 hok c3State.vote.choices (Finset.Subset.refl _) (by decide)
  have hnd := nodup_sortedListOf classLe (getAllSubsets c3State.vote.choices 1)
  have hC := spsrInitGo_char (getAllSubsetsList c3State.vote.choices 1) hnd c3State st2 hok
  have hview : srHeightView st2 c3State.vote.choices = 0 := by
    rw [hC.1 c3State.vote.choices ?_]
    · rfl
    · intro hmem
      exact full_not_mem_getAllSubsets_one c3State.vote.choices (by decide)
        ((mem_sortedListOf _ _ _).mp hmem)
  have hfrac : spsrFrac c3State c3State.vote.choices = 1 := by
    have hcnt : countSubsetAgents c3State.agents c3State.vote.choices = 1 := by decide
    unfold spsrFrac
    rw [hcnt]
    norm_num
    rfl
  rw [hview, hfrac] at hclaim
  exact absurd hclaim (by norm_num)

/-- C3: before the SPSR main loop, for every subset the initialisation
loop enumerates — every non-empty PROPER subset of the outcome set (plus,
for a one-outcome vote, the whole set) — the subset's tower height is set
to the fraction of agents whose current tie-group is contained in it, and
every agent whose current tie-group equals the subset gets the same
personal height; the full outcome set of a vote with at least two
outcomes, however, is NOT touched: its tower keeps its previous height,
contrary to the claim's "in particular this happens for the full outcome
set too". -/
theorem spsrInit_heights (st st2 : SRState)
    (hag : st.agents.length = st.vote.agents.length)
    (hok : spsrInit st = .ok st2) :
    (∀ S ∈ getAllSubsets st.vote.choices 1,
      srHeightView st2 S = spsrFrac st S ∧
      (∀ d2 ∈ st2.agents, d2.current = some S → d2.height = spsrFrac st S)) ∧
    (2 ≤ st.vote.choices.card →
      srHeightView st2 st.vote.choices = srHeightView st st.vote.choices) := by
  have hnd := nodup_sortedListOf classLe (getAllSubsets st.vote.choices 1)
  have hC := spsrInitGo_char (getAllSubsetsList st.vote.choices 1) hnd st st2 hok
  constructor
  · intro S hS
    have hSL : S ∈ getAllSubsetsList st.vote.choices 1 :=
      (mem_sortedListOf _ _ _).mpr hS
    refine ⟨hC.2.1 S hSL, ?_⟩
    intro d2 hd2 hcur
    rw [hC.2.2.1] at hd2
    obtain ⟨d, hd, rfl⟩ := List.mem_map.mp hd2
    have hdc : d.current = some S := by
      rw [← spsrAgentUpdate_current (spsrFrac st) (getAllSubsetsList st.vote.choices 1) d]
      exact hcur
    show (spsrAgentUpdate (spsrFrac st) (getAllSubsetsList st.vote.choices 1) d).height
      = spsrFrac st S
    simp only [spsrAgentUpdate, hdc]
    rw [if_pos hSL]
    obtain ⟨h0, h1⟩ := spsrFrac_unit st hag S
    exact boundValue_unit_id _ h0 h1
  · intro h2
    apply hC.1
    intro hmem
    exact full_not_mem_getAllSubsets_one st.vote.choices h2
      ((mem_sortedListOf _ _ _).mp hmem)

/-- C3 witness: in the concrete C3 scenario the initialisation succeeds,
the singleton subset of the first outcome gets its fraction as tower
height, and the full two-outcome set is untouched. -/
theorem spsrInit_heights_witness :
    ∃ st2, spsrInit c3State = .ok st2 ∧
      srHeightView st2 {chA} = spsrFrac c3State {chA} ∧
      srHeightView st2 c3State.vote.choices = srHeightView c3State c3State.vote.choices := by
  obtain ⟨st2, hok⟩ :=
    spsrInitGo_total (getAllSubsetsList c3State.vote.choices 1) c3State rfl
  have h := spsrInit_heights c3State st2 rfl hok
  exact ⟨st2, hok, (h.1 {chA} (by decide)).1, h.2 (by decide)⟩
